import Mathlib

/-!
Verification of the simplebot_mastodon account-synchronization and relay engine.

This development is a shallow embedding of the repository's Python sources:

* `src/simplebot_mastodon/util.py` — the newer, ORM-backed sync engine
  (`_check_notifications`, `_check_home`, `_handle_dms`, `_check_mastodon`,
  `notif2reply`, `_get_name`, the `SPAM` and `MUTED_NOTIFICATIONS` constants);
* `src/simplebot_mastodon/orm.py` — the `Account`/`DmChat` records and the
  delete cascade;
* `src/simplebot_mastodon/__init__.py` — the `m_login` command (cursor
  priming and duplicate-account handling) of the DBManager generation;
* `src/simplebot_mastodon/db.py` — `add_pchat` / `get_pchat_by_contact`.

Modelling conventions, stated once here:

* Event identifiers (Mastodon notification ids, status ids, chat ids) are
  `Nat`; in the store a cursor is `Option Nat` (`none` = the SQL NULL that
  `last_home` / `last_notif` start as).
* `created_at.strftime(...)` is modelled by storing the already formatted
  timestamp string in the record; HTML-to-text rendering of a status body
  (BeautifulSoup) is external library code and is not re-implemented: a
  delivered status is carried whole in the delivery trace instead of its
  rendered text.  `notif2reply`, which builds its text by plain string
  concatenation in the source, is embedded literally.
* Where the Python keeps `toot.status` in a work list (`dms.append(toot.status)`,
  `mentions.append(toot.status)`) the embedding keeps the whole notification
  and projects `.status` at each use, so that theorems can speak about the
  originating event's id; every field access matches the source.
* Effects (SQL writes, chat deliveries, group creation) become an explicit
  trace of `Act`s produced in exactly the order the source performs them.
* The remote API calls `masto.notifications(min_id=..., limit=100)` and
  `masto.timeline_home(min_id=..., limit=100)` are external collaborators;
  they are modelled from the Mastodon API pagination contract: `min_id` sets
  a forward cursor, so the server returns the page of events immediately
  newer than `min_id` (the oldest such events when more than `limit` exist),
  sorted newest-first; with no `min_id` it returns the newest `limit` events.
  The server itself is a list of events sorted newest-first.
-/

/-- A remote Mastodon account object, with the fields the engine reads
(`id`, `acct`, `display_name`, `bot`). -/
structure MAccount where
  id : Nat
  acct : String
  display_name : String
  bot : Bool
deriving DecidableEq, Repr

/-- A status ("toot"): the fields of the remote status object that the
embedded code paths read.  `created_at` holds the already-formatted
timestamp (see the header comment). -/
structure Toot where
  id : Nat
  account : MAccount
  visibility : String
  mentions : List MAccount
  content : String
  url : String
  created_at : String
deriving DecidableEq, Repr

/-- A notification event (`toot` in `_check_notifications`): id, kind
(`type` in the API: "mention", "reblog", "favourite", "follow", ...), the
acting account, and the underlying status. -/
structure Notification where
  id : Nat
  kind : String
  account : MAccount
  status : Toot
deriving DecidableEq, Repr

/-- util.py `MUTED_NOTIFICATIONS = ("reblog", "favourite", "follow")`. -/
def MUTED_NOTIFICATIONS : List String := ["reblog", "favourite", "follow"]

/-- util.py `SPAM = [...]`, the hard-coded keyword blocklist. -/
def SPAM : List String :=
  ["/fediversechick/",
   "https://discord.gg/83CnebyzXh",
   "https://matrix.to/#/#nicoles_place:matrix.org"]

/-- Does `needle` occur at the start of `hay`?  (Helper for the Python
substring test `keyword in content`.) -/
def seqStartsWith : List Char → List Char → Bool
  | [], _ => true
  | _ :: _, [] => false
  | a :: as, b :: bs => a == b && seqStartsWith as bs

/-- Does `needle` occur contiguously anywhere in `hay`?  This is Python's
`needle in hay` on strings. -/
def containsSub (needle : List Char) : List Char → Bool
  | [] => needle.isEmpty
  | hay@(_ :: rest) => seqStartsWith needle hay || containsSub needle rest

/-- util.py line 548: `any(keyword in content for keyword in SPAM)`. -/
def isSpamContent (content : String) : Bool :=
  SPAM.any fun keyword => containsSub keyword.data content.data

/-- util.py `v2emoji` (visibility marker used by `notif2reply`'s metadata
line). -/
def v2emoji (visibility : String) : String :=
  if visibility == "direct" then "✉"
  else if visibility == "private" then "🔒"
  else if visibility == "unlisted" then "🔓"
  else "🌎"

/-- util.py `_get_name`: bot marker, then display name with the handle in
parentheses, falling back to the bare handle when the display name is empty
(Python truthiness of `display_name`). -/
def getName (macc : MAccount) : String :=
  let isbot := if macc.bot then "[BOT] " else ""
  if macc.display_name == "" then isbot ++ macc.acct
  else isbot ++ macc.display_name ++ " (@" ++ macc.acct ++ ")"

/-- The `\n\n[{emoji} {timestamp}]({url})` metadata suffix that
`notif2reply` appends for reblog/favourite summaries (util.py line 152). -/
def tootMeta (t : Toot) : String :=
  "\n\n[" ++ v2emoji t.visibility ++ " " ++ t.created_at ++ "](" ++ t.url ++ ")"

/-- util.py `notif2reply`: renders one *group* of same-kind notifications as
one summary reply.  Follows the source's branch order (follow, reblog,
favourite, else-unsupported → empty reply, modelled as `none`).  The source
indexes `toots[0]`; the callers never pass an empty group, and the `[]`
case is mapped to `none` (no reply).  The reblog/favourite replies also set
an `html` field from the status content in the source; only the text is
modelled. -/
def notif2reply (toots : List Notification) : Option String :=
  match toots with
  | [] => none
  | t0 :: _ =>
    let name := String.intercalate ", " (toots.map fun t => getName t.account)
    if t0.kind == "follow" then some ("👤 " ++ name ++ " followed you.")
    else if t0.kind == "reblog" then
      some ("🔁 " ++ name ++ " boosted your toot." ++ tootMeta t0.status)
    else if t0.kind == "favourite" then
      some ("⭐ " ++ name ++ " favorited your toot." ++ tootMeta t0.status)
    else none

/-- util.py lines 542-546: the direct-message test of `_check_notifications`
(`toot.type == "mention" and toot.status.visibility == Visibility.DIRECT and
len(toot.status.mentions) == 1`). -/
def isDmNotification (t : Notification) : Bool :=
  t.kind == "mention" && t.status.visibility == "direct"
    && t.status.mentions.length == 1

/-- util.py lines 541-551: the first classification loop of
`_check_notifications`, splitting the fetched batch into the direct-message
work list and the remaining notifications.  A qualifying mention whose
content matches the SPAM blocklist is dropped entirely; a non-DM event is
kept unless `muted_notif` is set and its kind is in `MUTED_NOTIFICATIONS`.
The source appends `toot.status` to `dms`; the embedding keeps the whole
notification (see header). -/
def classifyNotifs (muted_notif : Bool) : List Notification → List Notification × List Notification
  | [] => ([], [])
  | t :: rest =>
    let (dms, notifs) := classifyNotifs muted_notif rest
    if isDmNotification t then
      if isSpamContent t.status.content then (dms, notifs) else (t :: dms, notifs)
    else if !muted_notif || !(MUTED_NOTIFICATIONS.contains t.kind) then
      (dms, t :: notifs)
    else (dms, notifs)

/-- Insertion-ordered dictionary update, the Python
`d.setdefault(key, []).append(x)`. -/
def addToGroup {κ β : Type} [DecidableEq κ] (gs : List (κ × List β)) (k : κ) (x : β) :
    List (κ × List β) :=
  match gs with
  | [] => [(k, [x])]
  | (k0, l) :: rest =>
    if k0 = k then (k0, l ++ [x]) :: rest else (k0, l) :: addToGroup rest k x

/-- Lookup in an insertion-ordered dictionary. -/
def assocFind {κ β : Type} [DecidableEq κ] (gs : List (κ × List β)) (k : κ) :
    Option (List β) :=
  match gs with
  | [] => none
  | (k0, l) :: rest => if k0 = k then some l else assocFind rest k

/-- The four accumulators of the grouping loop in `_check_notifications`
(util.py lines 561-573): `reblogs` and `favs` are insertion-ordered
dictionaries keyed by `toot.status.id`, `follows` and `mentions` are plain
lists.  The source appends `toot.status` to `mentions`; the embedding keeps
the whole notification (see header). -/
structure Groups where
  reblogs : List (Nat × List Notification)
  favs : List (Nat × List Notification)
  follows : List Notification
  mentions : List Notification
deriving DecidableEq, Repr

/-- One iteration of the grouping loop body (util.py lines 566-573). -/
def applyGroup (g : Groups) (t : Notification) : Groups :=
  if t.kind == "reblog" then { g with reblogs := addToGroup g.reblogs t.status.id t }
  else if t.kind == "favourite" then { g with favs := addToGroup g.favs t.status.id t }
  else if t.kind == "follow" then { g with follows := g.follows ++ [t] }
  else { g with mentions := g.mentions ++ [t] }

/-- Folds the grouping loop over a list, in the given order. -/
def groupGo (g : Groups) : List Notification → Groups
  | [] => g
  | t :: rest => groupGo (applyGroup g t) rest

/-- util.py line 565: `for toot in reversed(notifications): ...` — the
batch is iterated oldest-first into the four accumulators. -/
def groupNotifications (l : List Notification) : Groups :=
  groupGo ⟨[], [], [], []⟩ l.reverse

/-- util.py lines 574-576: `notifs = [*reblogs.values(), *favs.values()]`,
with `follows` appended as one extra batch when non-empty. -/
def groupBatches (g : Groups) : List (List Notification) :=
  (g.reblogs.map Prod.snd) ++ (g.favs.map Prod.snd)
    ++ (if g.follows.isEmpty then [] else [g.follows])

/-- A `DmChat` row of orm.py: chat id, contact handle (stored verbatim),
owning account address. -/
structure DmChatRec where
  chat_id : Nat
  contact : String
  acc_addr : String
deriving DecidableEq, Repr

/-- util.py `_get_chat_id` inside `_handle_dms`:
`session.query(DmChat).filter_by(acc_addr=addr, contact=acct).first()`,
returning `0` when no row matches.  SQLite compares `contact` with its
default binary collation, i.e. case-sensitively. -/
def getChatId (store : List DmChatRec) (addr acct : String) : Nat :=
  match store.find? (fun r => r.acc_addr == addr && r.contact == acct) with
  | some r => r.chat_id
  | none => 0

/-- Lookup in the in-memory `chats` cache dict of `_handle_dms`. -/
def cacheGet (cache : List (String × Nat)) (k : String) : Option Nat :=
  match cache with
  | [] => none
  | (k0, v) :: rest => if k0 == k then some v else cacheGet rest k

/-- `chats[acct] = v` on the in-memory cache dict. -/
def cacheSet (cache : List (String × Nat)) (k : String) (v : Nat) : List (String × Nat) :=
  match cache with
  | [] => [(k, v)]
  | (k0, v0) :: rest =>
    if k0 == k then (k0, v) :: rest else (k0, v0) :: cacheSet rest k v

/-- One observable effect of a sync pass or cycle, in source order.
Deliveries carry the source event (see header); `logChecking` is the
`"{addr}: Checking account"` log line that opens every per-account check. -/
inductive Act where
  | persistNotif (addr : String) (id : Nat)
  | persistHome (addr : String) (id : Nat)
  | createChat (chat_id : Nat) (contact : String)
  | deliverDm (chat_id : Nat) (n : Notification)
  | deliverGroup (chat_id : Nat) (group : List Notification) (text : String)
  | deliverMention (chat_id : Nat) (n : Notification)
  | deliverHome (chat_id : Nat) (t : Toot)
  | leaveChat (chat_id : Nat)
  | sendLogout (addr : String)
  | sendAccountError (addr : String)
  | logChecking (addr : String)
deriving DecidableEq, Repr

/-- util.py `_handle_dms` body: iterate the direct messages oldest-first
(`for dm in reversed(dms)`), resolve the contact's chat via the in-memory
cache and then the DmChat store, create a fresh group chat (ids allocated
from `nextId`) and persist the mapping on a miss, then deliver.  The
avatar download and the per-message render are external effects not
modelled; the Python caches a possibly-zero store miss and immediately
overwrites it on creation, which is embedded literally. -/
def resolveChatId (addr : String) (store : List DmChatRec)
    (cache : List (String × Nat)) (acct : String) : Nat :=
  if ((cacheGet cache acct).getD 0) == 0 then getChatId store addr acct
  else (cacheGet cache acct).getD 0

/-- util.py `_handle_dms` body, iterated over one message: resolve the
contact's chat via `resolveChatId`, create a fresh group chat (ids
allocated from `nextId`) and persist the mapping on a miss, then deliver.
The avatar download and the per-message render are external effects not
modelled; the Python caches a possibly-zero store miss and immediately
overwrites it on creation, which is embedded literally. -/
def handleDmsGo (addr : String) :
    List Notification → List DmChatRec → Nat → List (String × Nat) →
      List DmChatRec × Nat × List Act
  | [], store, nextId, _ => (store, nextId, [])
  | dm :: rest, store, nextId, cache =>
    let acct := dm.status.account.acct
    let cid := resolveChatId addr store cache acct
    let cache1 :=
      if ((cacheGet cache acct).getD 0) == 0 then cacheSet cache acct cid else cache
    if cid == 0 then
      let store1 := store ++ [⟨nextId, acct, addr⟩]
      let cache2 := cacheSet cache1 acct nextId
      let (s, n, tr) := handleDmsGo addr rest store1 (nextId + 1) cache2
      (s, n, Act.createChat nextId acct :: Act.deliverDm nextId dm :: tr)
    else
      let (s, n, tr) := handleDmsGo addr rest store nextId cache1
      (s, n, Act.deliverDm cid dm :: tr)

/-- util.py `_handle_dms` entry point: empty cache, messages processed in
reverse (oldest-first) order. -/
def handleDms (addr : String) (dms : List Notification) (store : List DmChatRec)
    (nextId : Nat) : List DmChatRec × Nat × List Act :=
  handleDmsGo addr dms.reverse store nextId []

/-- Result of one `_check_notifications` run: the account's `last_notif`
cursor after the run, the DmChat store, the chat-id allocator, and the
effect trace. -/
structure NotifResult where
  cursor : Option Nat
  store : List DmChatRec
  nextId : Nat
  trace : List Act
deriving DecidableEq, Repr

/-- util.py `_check_notifications`, given the already-fetched batch
(newest-first, as returned by the API): if the batch is non-empty, first
persist `last_notif = toots[0].id`, then classify, then handle direct
messages, then send one reply per notification group
(`notif2replies(notifs)` skips empty replies), then one reply per mention
(`toots2replies` always yields; its HTML rendering is external and the
mention's event is carried whole). -/
def checkNotifications (addr : String) (notifChat : Nat) (lastId : Option Nat)
    (muted_notif : Bool) (toots : List Notification) (store : List DmChatRec)
    (nextId : Nat) : NotifResult :=
  match toots with
  | [] => ⟨lastId, store, nextId, []⟩
  | t0 :: _ =>
    let (dms, notifs) := classifyNotifs muted_notif toots
    let (store1, nextId1, dmTrace) := handleDms addr dms store nextId
    let g := groupNotifications notifs
    let groupTrace := (groupBatches g).filterMap fun grp =>
      (notif2reply grp).map fun text => Act.deliverGroup notifChat grp text
    let mentionTrace := g.mentions.map fun n => Act.deliverMention notifChat n
    ⟨some t0.id, store1, nextId1,
      Act.persistNotif addr t0.id :: dmTrace ++ groupTrace ++ mentionTrace⟩

/-- Result of one `_check_home` run: the `last_home` cursor after the run
and the effect trace. -/
structure HomeResult where
  cursor : Option Nat
  trace : List Act
deriving DecidableEq, Repr

/-- util.py `_check_home`, given the already-fetched batch (newest-first):
if non-empty, persist `last_home = toots[0].id`, drop every post that
mentions the account's own id, and deliver the rest oldest-first to the
home chat. -/
def checkHome (addr : String) (homeChat : Nat) (lastId : Option Nat) (meId : Nat)
    (toots : List Toot) : HomeResult :=
  match toots with
  | [] => ⟨lastId, []⟩
  | t0 :: _ =>
    let kept := toots.filter fun t => !(t.mentions.any fun a => a.id == meId)
    ⟨some t0.id,
      Act.persistHome addr t0.id :: kept.reverse.map (Act.deliverHome homeChat)⟩

/-- Does `id` lie strictly above the cursor (`none` = NULL cursor admits
everything)? -/
def newerThan (cursor : Option Nat) (id : Nat) : Bool :=
  match cursor with
  | none => true
  | some c => c < id

/-- The external fetch (`masto.notifications(min_id=..., limit=...)` /
`masto.timeline_home(min_id=..., limit=...)`), modelled from the Mastodon
API pagination contract (see header): the server is a newest-first list;
with a cursor, the page is the `limit` *oldest* events above the cursor
(forward pagination), still returned newest-first; with a NULL cursor the
newest `limit` events are returned. -/
def fetchPage {α : Type} (eventId : α → Nat) (server : List α)
    (cursor : Option Nat) (limit : Nat) : List α :=
  let newer := server.filter fun x => newerThan cursor (eventId x)
  match cursor with
  | none => newer.take limit
  | some _ => (newer.reverse.take limit).reverse

/-- One notifications pass against a server: fetch with `min_id=last_id,
limit=100` (util.py line 536), then run `_check_notifications`. -/
def notifPass (server : List Notification) (addr : String) (notifChat : Nat)
    (lastId : Option Nat) (muted_notif : Bool) (store : List DmChatRec)
    (nextId : Nat) : NotifResult :=
  checkNotifications addr notifChat lastId muted_notif
    (fetchPage (fun n => n.id) server lastId 100) store nextId

/-- One home pass against a server: fetch with `min_id=last_id, limit=100`
(util.py line 592), then run `_check_home`. -/
def homePass (server : List Toot) (addr : String) (homeChat : Nat)
    (lastId : Option Nat) (meId : Nat) : HomeResult :=
  checkHome addr homeChat lastId meId (fetchPage (fun t => t.id) server lastId 100)

/-- Event ids of the notification-stream events an action delivers. -/
def actionNotifIds : Act → List Nat
  | .deliverDm _ n => [n.id]
  | .deliverGroup _ grp _ => grp.map fun n => n.id
  | .deliverMention _ n => [n.id]
  | .persistNotif _ _ => []
  | .persistHome _ _ => []
  | .createChat _ _ => []
  | .deliverHome _ _ => []
  | .leaveChat _ => []
  | .sendLogout _ => []
  | .sendAccountError _ => []
  | .logChecking _ => []

/-- Event ids of the home-stream posts an action delivers. -/
def actionHomeIds : Act → List Nat
  | .deliverHome _ t => [t.id]
  | .deliverDm _ _ => []
  | .deliverGroup _ _ _ => []
  | .deliverMention _ _ => []
  | .persistNotif _ _ => []
  | .persistHome _ _ => []
  | .createChat _ _ => []
  | .leaveChat _ => []
  | .sendLogout _ => []
  | .sendAccountError _ => []
  | .logChecking _ => []


theorem classifyNotifs_fst (muted : Bool) (l : List Notification) :
    (classifyNotifs muted l).1
      = l.filter fun t => isDmNotification t && !isSpamContent t.status.content := by
  induction l with
  | nil => rfl
  | cons t rest ih =>
    simp only [classifyNotifs, List.filter_cons]
    by_cases h1 : isDmNotification t
    · by_cases h2 : isSpamContent t.status.content
      · simp [h1, h2, ih]
      · simp [h1, h2, ih]
    · rcases Bool.eq_false_or_eq_true muted with hm | hm
      all_goals subst hm
      all_goals by_cases hk : t.kind ∈ MUTED_NOTIFICATIONS
      all_goals simp [h1, hk, ih]

theorem classifyNotifs_snd (muted : Bool) (l : List Notification) :
    (classifyNotifs muted l).2
      = l.filter fun t =>
          !isDmNotification t && (!muted || !(MUTED_NOTIFICATIONS.contains t.kind)) := by
  induction l with
  | nil => rfl
  | cons t rest ih =>
    simp only [classifyNotifs, List.filter_cons]
    by_cases h1 : isDmNotification t
    · by_cases h2 : isSpamContent t.status.content
      · simp [h1, h2, ih]
      · simp [h1, h2, ih]
    · rcases Bool.eq_false_or_eq_true muted with hm | hm
      all_goals subst hm
      all_goals by_cases hk : t.kind ∈ MUTED_NOTIFICATIONS
      all_goals simp [h1, hk, ih]

theorem groupGo_follows (g : Groups) (l : List Notification) :
    (groupGo g l).follows = g.follows ++ l.filter fun t => t.kind == "follow" := by
  induction l generalizing g with
  | nil => simp [groupGo]
  | cons t rest ih =>
    simp only [groupGo, List.filter_cons]
    rw [ih]
    by_cases h1 : t.kind = "reblog"
    · simp [applyGroup, h1]
    · by_cases h2 : t.kind = "favourite"
      · simp [applyGroup, h1, h2]
      · by_cases h3 : t.kind = "follow"
        · simp [applyGroup, h1, h2, h3]
        · simp [applyGroup, h1, h2, h3]

theorem groupGo_mentions (g : Groups) (l : List Notification) :
    (groupGo g l).mentions
      = g.mentions ++ l.filter fun t =>
          !(t.kind == "reblog") && !(t.kind == "favourite") && !(t.kind == "follow") := by
  induction l generalizing g with
  | nil => simp [groupGo]
  | cons t rest ih =>
    simp only [groupGo, List.filter_cons]
    rw [ih]
    by_cases h1 : t.kind = "reblog"
    · simp [applyGroup, h1]
    · by_cases h2 : t.kind = "favourite"
      · simp [applyGroup, h1, h2]
      · by_cases h3 : t.kind = "follow"
        · simp [applyGroup, h1, h2, h3]
        · simp [applyGroup, h1, h2, h3]

/-- Keys of an insertion-ordered dictionary. -/
def assocKeys {κ β : Type} (gs : List (κ × List β)) : List κ := gs.map Prod.fst

theorem assocKeys_nil {κ β : Type} : assocKeys ([] : List (κ × List β)) = [] := rfl

theorem assocKeys_cons {κ β : Type} (k : κ) (l : List β) (rest : List (κ × List β)) :
    assocKeys ((k, l) :: rest) = k :: assocKeys rest := rfl

theorem assocFind_addToGroup_same {κ β : Type} [DecidableEq κ]
    (gs : List (κ × List β)) (k : κ) (x : β) :
    assocFind (addToGroup gs k x) k = some (((assocFind gs k).getD []) ++ [x]) := by
  induction gs with
  | nil => simp [addToGroup, assocFind]
  | cons p rest ih =>
    obtain ⟨k0, l⟩ := p
    by_cases h : k0 = k
    · simp [addToGroup, assocFind, h]
    · simp [addToGroup, assocFind, h, ih]

theorem assocFind_addToGroup_other {κ β : Type} [DecidableEq κ]
    (gs : List (κ × List β)) (k k2 : κ) (x : β) (hk : k2 ≠ k) :
    assocFind (addToGroup gs k x) k2 = assocFind gs k2 := by
  induction gs with
  | nil => simp [addToGroup, assocFind, Ne.symm hk]
  | cons p rest ih =>
    obtain ⟨k0, l⟩ := p
    simp only [addToGroup]
    by_cases h : k0 = k
    · subst h
      have hne : ¬ k0 = k2 := fun hh => hk hh.symm
      simp [assocFind, hne]
    · simp only [if_neg h]
      by_cases h2 : k0 = k2
      · simp [assocFind, h2]
      · simp [assocFind, h2, ih]

theorem assocFind_isSome_iff_mem {κ β : Type} [DecidableEq κ]
    (gs : List (κ × List β)) (k : κ) :
    (assocFind gs k).isSome ↔ k ∈ assocKeys gs := by
  induction gs with
  | nil => simp [assocFind, assocKeys_nil]
  | cons p rest ih =>
    obtain ⟨k0, l⟩ := p
    rw [assocKeys_cons]
    by_cases h : k0 = k
    · simp [assocFind, h]
    · have hne : ¬ k = k0 := fun hh => h hh.symm
      simp [assocFind, h, hne, ih]

theorem assocKeys_addToGroup {κ β : Type} [DecidableEq κ]
    (gs : List (κ × List β)) (k : κ) (x : β) :
    assocKeys (addToGroup gs k x)
      = if k ∈ assocKeys gs then assocKeys gs else assocKeys gs ++ [k] := by
  induction gs with
  | nil => simp [addToGroup, assocKeys_nil, assocKeys_cons]
  | cons p rest ih =>
    obtain ⟨k0, l⟩ := p
    rw [assocKeys_cons]
    by_cases h : k0 = k
    · subst h
      simp [addToGroup, assocKeys_cons]
    · have hne : ¬ k = k0 := fun hh => h hh.symm
      by_cases hm : k ∈ assocKeys rest
      · simp [addToGroup, h, assocKeys_cons, ih, hne, hm]
      · simp [addToGroup, h, assocKeys_cons, ih, hne, hm]

theorem assocKeys_nodup_addToGroup {κ β : Type} [DecidableEq κ]
    (gs : List (κ × List β)) (k : κ) (x : β) (h : (assocKeys gs).Nodup) :
    (assocKeys (addToGroup gs k x)).Nodup := by
  rw [assocKeys_addToGroup]
  by_cases hm : k ∈ assocKeys gs
  · simpa [hm]
  · simp only [hm, if_false]
    simpa [List.nodup_append] using ⟨h, hm⟩

theorem assoc_mem_find {κ β : Type} [DecidableEq κ]
    (gs : List (κ × List β)) (k : κ) (l : List β)
    (hmem : (k, l) ∈ gs) (hnd : (assocKeys gs).Nodup) :
    assocFind gs k = some l := by
  induction gs with
  | nil => simp at hmem
  | cons p rest ih =>
    obtain ⟨k0, l0⟩ := p
    rw [assocKeys_cons] at hnd
    simp only [List.mem_cons] at hmem
    rcases hmem with h | h
    · injection h with h1 h2
      simp [assocFind, h1.symm, h2]
    · have hk : ¬ k0 = k := by
        rintro rfl
        have hmemk : k0 ∈ assocKeys rest := by
          simp only [assocKeys, List.mem_map]
          exact ⟨(k0, l), h, rfl⟩
        exact (List.nodup_cons.mp hnd).1 hmemk
      simp [assocFind, hk, ih h (List.nodup_cons.mp hnd).2]

theorem groupGo_reblogs_find (g : Groups) (l : List Notification) (k : Nat) :
    (assocFind (groupGo g l).reblogs k).getD []
      = (assocFind g.reblogs k).getD []
          ++ l.filter fun t => t.kind == "reblog" && t.status.id == k := by
  induction l generalizing g with
  | nil => simp [groupGo]
  | cons t rest ih =>
    simp only [groupGo, List.filter_cons]
    rw [ih]
    by_cases h1 : t.kind = "reblog"
    · by_cases hid : t.status.id = k
      · subst hid
        simp [applyGroup, h1, assocFind_addToGroup_same]
      · simp [applyGroup, h1, hid, assocFind_addToGroup_other _ _ _ _ (fun hh => hid hh.symm)]
    · by_cases h2 : t.kind = "favourite"
      · simp [applyGroup, h1, h2]
      · by_cases h3 : t.kind = "follow"
        · simp [applyGroup, h1, h2, h3]
        · simp [applyGroup, h1, h2, h3]

theorem groupGo_favs_find (g : Groups) (l : List Notification) (k : Nat) :
    (assocFind (groupGo g l).favs k).getD []
      = (assocFind g.favs k).getD []
          ++ l.filter fun t => t.kind == "favourite" && t.status.id == k := by
  induction l generalizing g with
  | nil => simp [groupGo]
  | cons t rest ih =>
    simp only [groupGo, List.filter_cons]
    rw [ih]
    by_cases h1 : t.kind = "reblog"
    · simp [applyGroup, h1]
    · by_cases h2 : t.kind = "favourite"
      · by_cases hid : t.status.id = k
        · subst hid
          simp [applyGroup, h1, h2, assocFind_addToGroup_same]
        · simp [applyGroup, h1, h2, hid,
            assocFind_addToGroup_other _ _ _ _ (fun hh => hid hh.symm)]
      · by_cases h3 : t.kind = "follow"
        · simp [applyGroup, h1, h2, h3]
        · simp [applyGroup, h1, h2, h3]

theorem groupGo_reblogs_keys_nodup (g : Groups) (l : List Notification)
    (h : (assocKeys g.reblogs).Nodup) : (assocKeys (groupGo g l).reblogs).Nodup := by
  induction l generalizing g with
  | nil => simpa [groupGo]
  | cons t rest ih =>
    simp only [groupGo]
    apply ih
    by_cases h1 : t.kind = "reblog"
    · simpa [applyGroup, h1] using assocKeys_nodup_addToGroup _ _ _ h
    · by_cases h2 : t.kind = "favourite"
      · simpa [applyGroup, h1, h2]
      · by_cases h3 : t.kind = "follow"
        · simpa [applyGroup, h1, h2, h3]
        · simpa [applyGroup, h1, h2, h3]

theorem groupGo_favs_keys_nodup (g : Groups) (l : List Notification)
    (h : (assocKeys g.favs).Nodup) : (assocKeys (groupGo g l).favs).Nodup := by
  induction l generalizing g with
  | nil => simpa [groupGo]
  | cons t rest ih =>
    simp only [groupGo]
    apply ih
    by_cases h1 : t.kind = "reblog"
    · simpa [applyGroup, h1]
    · by_cases h2 : t.kind = "favourite"
      · simpa [applyGroup, h1, h2] using assocKeys_nodup_addToGroup _ _ _ h
      · by_cases h3 : t.kind = "follow"
        · simpa [applyGroup, h1, h2, h3]
        · simpa [applyGroup, h1, h2, h3]

theorem groupGo_reblogs_keys_mem (g : Groups) (l : List Notification) (k : Nat) :
    k ∈ assocKeys (groupGo g l).reblogs
      ↔ k ∈ assocKeys g.reblogs
          ∨ k ∈ (l.filter fun t => t.kind == "reblog").map fun t => t.status.id := by
  induction l generalizing g with
  | nil => simp [groupGo]
  | cons t rest ih =>
    simp only [groupGo, List.filter_cons]
    rw [ih]
    by_cases h1 : t.kind = "reblog"
    · have happ : (applyGroup g t).reblogs = addToGroup g.reblogs t.status.id t := by
        simp [applyGroup, h1]
      rw [happ, assocKeys_addToGroup]
      by_cases hm : t.status.id ∈ assocKeys g.reblogs
      · by_cases hk : k = t.status.id
        · subst hk
          simp [h1, hm]
        · simp [h1, hm, hk]
      · by_cases hk : k = t.status.id
        · subst hk
          simp [h1, hm]
        · simp [h1, hm, hk]
    · by_cases h2 : t.kind = "favourite"
      · simp [applyGroup, h1, h2]
      · by_cases h3 : t.kind = "follow"
        · simp [applyGroup, h1, h2, h3]
        · simp [applyGroup, h1, h2, h3]

theorem groupGo_favs_keys_mem (g : Groups) (l : List Notification) (k : Nat) :
    k ∈ assocKeys (groupGo g l).favs
      ↔ k ∈ assocKeys g.favs
          ∨ k ∈ (l.filter fun t => t.kind == "favourite").map fun t => t.status.id := by
  induction l generalizing g with
  | nil => simp [groupGo]
  | cons t rest ih =>
    simp only [groupGo, List.filter_cons]
    rw [ih]
    by_cases h1 : t.kind = "reblog"
    · simp [applyGroup, h1]
    · by_cases h2 : t.kind = "favourite"
      · have happ : (applyGroup g t).favs = addToGroup g.favs t.status.id t := by
          simp [applyGroup, h1, h2]
        rw [happ, assocKeys_addToGroup]
        by_cases hm : t.status.id ∈ assocKeys g.favs
        · by_cases hk : k = t.status.id
          · subst hk
            simp [h1, h2, hm]
          · simp [h1, h2, hm, hk]
        · by_cases hk : k = t.status.id
          · subst hk
            simp [h1, h2, hm]
          · simp [h1, h2, hm, hk]
      · by_cases h3 : t.kind = "follow"
        · simp [applyGroup, h1, h2, h3]
        · simp [applyGroup, h1, h2, h3]

/-- Every reblog group of `groupNotifications l` is exactly the (oldest
first) sub-sequence of reblog events on its post id. -/
theorem groupNotifications_reblogs_eq (l : List Notification) (k : Nat)
    (grp : List Notification) (hmem : (k, grp) ∈ (groupNotifications l).reblogs) :
    grp = l.reverse.filter fun t => t.kind == "reblog" && t.status.id == k := by
  have hnd : (assocKeys (groupNotifications l).reblogs).Nodup :=
    groupGo_reblogs_keys_nodup _ _ (by simp [assocKeys_nil])
  have hfind := assoc_mem_find _ _ _ hmem hnd
  have hchar := groupGo_reblogs_find ⟨[], [], [], []⟩ l.reverse k
  simp only [groupNotifications] at hfind ⊢
  rw [hfind] at hchar
  simpa [assocFind] using hchar

/-- Every favourite group of `groupNotifications l` is exactly the (oldest
first) sub-sequence of favourite events on its post id. -/
theorem groupNotifications_favs_eq (l : List Notification) (k : Nat)
    (grp : List Notification) (hmem : (k, grp) ∈ (groupNotifications l).favs) :
    grp = l.reverse.filter fun t => t.kind == "favourite" && t.status.id == k := by
  have hnd : (assocKeys (groupNotifications l).favs).Nodup :=
    groupGo_favs_keys_nodup _ _ (by simp [assocKeys_nil])
  have hfind := assoc_mem_find _ _ _ hmem hnd
  have hchar := groupGo_favs_find ⟨[], [], [], []⟩ l.reverse k
  simp only [groupNotifications] at hfind ⊢
  rw [hfind] at hchar
  simpa [assocFind] using hchar

theorem fetchPage_sublist {α : Type} (eventId : α → Nat) (server : List α)
    (cursor : Option Nat) (limit : Nat) :
    (fetchPage eventId server cursor limit).Sublist server := by
  have hf : (server.filter fun x => newerThan cursor (eventId x)).Sublist server :=
    List.filter_sublist server
  cases cursor with
  | none => exact ((List.take_sublist _ _).trans hf)
  | some c =>
    refine List.Sublist.trans ?_ hf
    have : ((server.filter fun x => newerThan (some c) (eventId x)).reverse.take limit).Sublist
        (server.filter fun x => newerThan (some c) (eventId x)).reverse :=
      List.take_sublist _ _
    simpa using List.reverse_sublist.mpr this

theorem fetchPage_mem {α : Type} (eventId : α → Nat) (server : List α)
    (cursor : Option Nat) (limit : Nat) (x : α)
    (hx : x ∈ fetchPage eventId server cursor limit) :
    x ∈ server ∧ newerThan cursor (eventId x) = true := by
  have hm : x ∈ server.filter fun x => newerThan cursor (eventId x) := by
    cases cursor with
    | none => exact (List.take_sublist _ _).mem hx
    | some c =>
      have := hx
      simp only [fetchPage] at this
      have h2 : x ∈ (server.filter fun x => newerThan (some c) (eventId x)).reverse.take limit := by
        simpa [List.mem_reverse] using this
      simpa [List.mem_reverse] using (List.take_sublist _ _).mem h2
  exact List.mem_filter.mp hm

theorem fetchPage_length_le {α : Type} (eventId : α → Nat) (server : List α)
    (cursor : Option Nat) (limit : Nat) :
    (fetchPage eventId server cursor limit).length ≤ limit := by
  cases cursor with
  | none => simp [fetchPage]
  | some c => simp [fetchPage]

theorem fetchPage_pairwise {α : Type} (eventId : α → Nat) (server : List α)
    (cursor : Option Nat) (limit : Nat)
    (hs : List.Pairwise (· > ·) (server.map eventId)) :
    List.Pairwise (· > ·) ((fetchPage eventId server cursor limit).map eventId) :=
  hs.sublist ((fetchPage_sublist eventId server cursor limit).map eventId)

theorem fetchPage_head_max {α : Type} (eventId : α → Nat) (server : List α)
    (cursor : Option Nat) (limit : Nat) (t0 : α) (rest : List α)
    (heq : fetchPage eventId server cursor limit = t0 :: rest)
    (hs : List.Pairwise (· > ·) (server.map eventId)) :
    ∀ x ∈ fetchPage eventId server cursor limit, eventId x ≤ eventId t0 := by
  have hp := fetchPage_pairwise eventId server cursor limit hs
  rw [heq] at hp ⊢
  rw [List.map_cons, List.pairwise_cons] at hp
  intro x hx
  rcases List.mem_cons.mp hx with h | h
  · subst h
    exact le_refl _
  · exact le_of_lt (hp.1 _ (List.mem_map_of_mem eventId h))

/-- The notification events delivered as direct messages in a trace, in
delivery order. -/
def dmPayloads : List Act → List Notification
  | [] => []
  | .deliverDm _ n :: tr => n :: dmPayloads tr
  | .persistNotif _ _ :: tr => dmPayloads tr
  | .persistHome _ _ :: tr => dmPayloads tr
  | .createChat _ _ :: tr => dmPayloads tr
  | .deliverGroup _ _ _ :: tr => dmPayloads tr
  | .deliverMention _ _ :: tr => dmPayloads tr
  | .deliverHome _ _ :: tr => dmPayloads tr
  | .leaveChat _ :: tr => dmPayloads tr
  | .sendLogout _ :: tr => dmPayloads tr
  | .sendAccountError _ :: tr => dmPayloads tr
  | .logChecking _ :: tr => dmPayloads tr

theorem handleDmsGo_dmPayloads (addr : String) (l : List Notification)
    (store : List DmChatRec) (nextId : Nat) (cache : List (String × Nat)) :
    dmPayloads (handleDmsGo addr l store nextId cache).2.2 = l := by
  induction l generalizing store nextId cache with
  | nil => simp [handleDmsGo, dmPayloads]
  | cons dm rest ih =>
    by_cases hc : resolveChatId addr store cache dm.status.account.acct = 0
    · simp [handleDmsGo, hc, dmPayloads, ih]
    · simp [handleDmsGo, hc, dmPayloads, ih]

theorem handleDmsGo_store_mono (addr : String) (l : List Notification)
    (store : List DmChatRec) (nextId : Nat) (cache : List (String × Nat)) :
    ∀ r ∈ (handleDmsGo addr l store nextId cache).1, r ∈ store ∨ r.acc_addr = addr := by
  induction l generalizing store nextId cache with
  | nil =>
    intro r hr
    exact Or.inl (by simpa [handleDmsGo] using hr)
  | cons dm rest ih =>
    intro r hr
    by_cases hc : resolveChatId addr store cache dm.status.account.acct = 0
    · simp only [handleDmsGo, hc, beq_self_eq_true, if_pos] at hr
      rcases ih _ _ _ _ (by simpa using hr) with h | h
      · rcases List.mem_append.mp h with h2 | h2
        · exact Or.inl h2
        · right
          simp only [List.mem_singleton] at h2
          subst h2
          rfl
      · exact Or.inr h
    · simp only [handleDmsGo] at hr
      rw [if_neg (by simpa using hc)] at hr
      exact ih _ _ _ _ (by simpa using hr)

theorem handleDmsGo_trace_shape (addr : String) (l : List Notification)
    (store : List DmChatRec) (nextId : Nat) (cache : List (String × Nat)) :
    ∀ a ∈ (handleDmsGo addr l store nextId cache).2.2,
      (∃ c n, a = Act.deliverDm c n ∧ n ∈ l) ∨ ∃ c s, a = Act.createChat c s := by
  induction l generalizing store nextId cache with
  | nil => simp [handleDmsGo]
  | cons dm rest ih =>
    intro a ha
    by_cases hc : resolveChatId addr store cache dm.status.account.acct = 0
    · simp only [handleDmsGo, hc, beq_self_eq_true, if_pos, List.mem_cons] at ha
      rcases ha with h | h | h
      · exact Or.inr ⟨_, _, h⟩
      · exact Or.inl ⟨_, _, h, List.mem_cons_self _ _⟩
      · rcases ih _ _ _ _ (by simpa using h) with ⟨c, n, he, hn⟩ | he
        · exact Or.inl ⟨c, n, he, List.mem_cons_of_mem _ hn⟩
        · exact Or.inr he
    · simp only [handleDmsGo] at ha
      rw [if_neg (by simpa using hc)] at ha
      simp only [List.mem_cons] at ha
      rcases ha with h | h
      · exact Or.inl ⟨_, _, h, List.mem_cons_self _ _⟩
      · rcases ih _ _ _ _ (by simpa using h) with ⟨c, n, he, hn⟩ | he
        · exact Or.inl ⟨c, n, he, List.mem_cons_of_mem _ hn⟩
        · exact Or.inr he

theorem classifyNotifs_fst_subset (muted : Bool) (l : List Notification) :
    ∀ t ∈ (classifyNotifs muted l).1, t ∈ l := by
  intro t ht
  rw [classifyNotifs_fst] at ht
  exact (List.filter_sublist l).mem ht

theorem classifyNotifs_snd_subset (muted : Bool) (l : List Notification) :
    ∀ t ∈ (classifyNotifs muted l).2, t ∈ l := by
  intro t ht
  rw [classifyNotifs_snd] at ht
  exact (List.filter_sublist l).mem ht

theorem groupBatches_subset (l : List Notification) :
    ∀ grp ∈ groupBatches (groupNotifications l), ∀ t ∈ grp, t ∈ l := by
  intro grp hgrp t ht
  simp only [groupBatches, List.mem_append] at hgrp
  rcases hgrp with (h | h) | h
  · obtain ⟨p, hmem, heq⟩ := List.mem_map.mp h
    obtain ⟨k, grp2⟩ := p
    rw [← heq] at ht
    simp only at ht
    rw [groupNotifications_reblogs_eq l k grp2 hmem] at ht
    exact List.mem_reverse.mp ((List.filter_sublist _).mem ht)
  · obtain ⟨p, hmem, heq⟩ := List.mem_map.mp h
    obtain ⟨k, grp2⟩ := p
    rw [← heq] at ht
    simp only at ht
    rw [groupNotifications_favs_eq l k grp2 hmem] at ht
    exact List.mem_reverse.mp ((List.filter_sublist _).mem ht)
  · have hgrp2 : grp = (groupNotifications l).follows := by
      by_cases hf : (groupNotifications l).follows.isEmpty
      · simp [hf] at h
      · simpa [hf] using h
    subst hgrp2
    have hchar := groupGo_follows ⟨[], [], [], []⟩ l.reverse
    simp only [groupNotifications] at ht
    rw [hchar] at ht
    simp only [List.nil_append] at ht
    exact List.mem_reverse.mp ((List.filter_sublist _).mem ht)

theorem mentions_subset (l : List Notification) :
    ∀ t ∈ (groupNotifications l).mentions, t ∈ l := by
  intro t ht
  have hchar := groupGo_mentions ⟨[], [], [], []⟩ l.reverse
  simp only [groupNotifications] at ht
  rw [hchar] at ht
  simp only [List.nil_append] at ht
  exact List.mem_reverse.mp ((List.filter_sublist _).mem ht)

/-- All notification-stream event ids delivered by a trace. -/
def traceNotifIds (tr : List Act) : List Nat := tr.flatMap actionNotifIds

/-- All home-stream post ids delivered by a trace. -/
def traceHomeIds (tr : List Act) : List Nat := tr.flatMap actionHomeIds

theorem traceNotifIds_cons (a : Act) (tr : List Act) :
    traceNotifIds (a :: tr) = actionNotifIds a ++ traceNotifIds tr := by
  simp [traceNotifIds]

theorem traceNotifIds_append (l1 l2 : List Act) :
    traceNotifIds (l1 ++ l2) = traceNotifIds l1 ++ traceNotifIds l2 := by
  simp [traceNotifIds]

theorem traceHomeIds_cons (a : Act) (tr : List Act) :
    traceHomeIds (a :: tr) = actionHomeIds a ++ traceHomeIds tr := by
  simp [traceHomeIds]

theorem traceHomeIds_append (l1 l2 : List Act) :
    traceHomeIds (l1 ++ l2) = traceHomeIds l1 ++ traceHomeIds l2 := by
  simp [traceHomeIds]

theorem checkNotifications_delivers_from_batch (addr : String) (notifChat : Nat)
    (lastId : Option Nat) (muted : Bool) (toots : List Notification)
    (store : List DmChatRec) (nextId : Nat) :
    ∀ i ∈ traceNotifIds
        (checkNotifications addr notifChat lastId muted toots store nextId).trace,
      i ∈ toots.map fun t => t.id := by
  intro i hi
  cases toots with
  | nil => simp [checkNotifications, traceNotifIds] at hi
  | cons t0 ts =>
    simp only [checkNotifications] at hi
    simp only [traceNotifIds_cons, traceNotifIds_append, actionNotifIds,
      List.nil_append, List.mem_append] at hi
    rcases hi with (hi | hi) | hi
    · obtain ⟨a, ha, hia⟩ := List.mem_flatMap.mp hi
      rcases handleDmsGo_trace_shape _ _ _ _ _ a ha with ⟨c, n, he, hn⟩ | ⟨c, s, he⟩
      · subst he
        simp only [actionNotifIds, List.mem_singleton] at hia
        subst hia
        have hn2 : n ∈ (classifyNotifs muted (t0 :: ts)).1 := List.mem_reverse.mp hn
        exact List.mem_map_of_mem _ (classifyNotifs_fst_subset _ _ _ hn2)
      · subst he
        simp [actionNotifIds] at hia
    · obtain ⟨a, ha, hia⟩ := List.mem_flatMap.mp hi
      obtain ⟨grp, hgrp, ha2⟩ := List.mem_filterMap.mp ha
      obtain ⟨text, htext, heq⟩ := Option.map_eq_some'.mp ha2
      subst heq
      simp only [actionNotifIds] at hia
      obtain ⟨n, hn, hieq⟩ := List.mem_map.mp hia
      subst hieq
      have hnmem := groupBatches_subset _ grp hgrp n hn
      exact List.mem_map_of_mem _
        (classifyNotifs_snd_subset muted (t0 :: ts) n hnmem)
    · obtain ⟨a, ha, hia⟩ := List.mem_flatMap.mp hi
      obtain ⟨n, hn, ha2⟩ := List.mem_map.mp ha
      subst ha2
      simp only [actionNotifIds, List.mem_singleton] at hia
      subst hia
      have hnmem := mentions_subset _ n hn
      exact List.mem_map_of_mem _
        (classifyNotifs_snd_subset muted (t0 :: ts) n hnmem)

theorem checkHome_delivers_from_batch (addr : String) (homeChat : Nat)
    (lastId : Option Nat) (meId : Nat) (toots : List Toot) :
    ∀ i ∈ traceHomeIds (checkHome addr homeChat lastId meId toots).trace,
      i ∈ toots.map fun t => t.id := by
  intro i hi
  cases toots with
  | nil => simp [checkHome, traceHomeIds] at hi
  | cons t0 ts =>
    simp only [checkHome] at hi
    rw [traceHomeIds_cons] at hi
    simp only [actionHomeIds, List.nil_append] at hi
    rw [traceHomeIds] at hi
    obtain ⟨a, ha, hia⟩ := List.mem_flatMap.mp hi
    obtain ⟨t, ht, ha2⟩ := List.mem_map.mp ha
    subst ha2
    simp only [actionHomeIds, List.mem_singleton] at hia
    subst hia
    have ht2 : t ∈ (t0 :: ts).filter fun t => !(t.mentions.any fun a => a.id == meId) :=
      List.mem_reverse.mp ht
    exact List.mem_map_of_mem _ ((List.filter_sublist _).mem ht2)

/-- Shared demo data for concrete witnesses. -/
def accA : MAccount := ⟨1, "alice", "", false⟩

def accB : MAccount := ⟨2, "bob", "Bob", false⟩

def accC : MAccount := ⟨3, "carol", "", false⟩

/-- A plain public status with the given id. -/
def demoToot (i : Nat) : Toot := ⟨i, accA, "public", [], "hi", "u", "t"⟩

/-- A follow notification with the given event id. -/
def demoFollow (i : Nat) : Notification := ⟨i, "follow", accA, demoToot 900⟩

/-- C1: with a non-null cursor, a sync pass never delivers an event with id
≤ the cursor (both streams), and when the fetch returns a non-empty batch
the cursor (`last_notif` / `last_home`) is set to the newest id in the
batch and the persisting store write is the first action of the pass's
trace, before any delivery of that batch. -/
theorem C1_cursor_before_delivery
    (ns : List Notification) (hs : List Toot) (addr : String) (nChat hChat : Nat)
    (cN cH : Nat) (muted : Bool) (store : List DmChatRec) (nid meId : Nat)
    (hns : List.Pairwise (· > ·) (ns.map fun n => n.id))
    (hhs : List.Pairwise (· > ·) (hs.map fun t => t.id)) :
    (∀ i ∈ traceNotifIds (notifPass ns addr nChat (some cN) muted store nid).trace, cN < i)
    ∧ (∀ i ∈ traceHomeIds (homePass hs addr hChat (some cH) meId).trace, cH < i)
    ∧ (fetchPage (fun n => n.id) ns (some cN) 100 ≠ [] →
        ∃ m tl, (notifPass ns addr nChat (some cN) muted store nid).trace
              = Act.persistNotif addr m :: tl
          ∧ (notifPass ns addr nChat (some cN) muted store nid).cursor = some m
          ∧ m ∈ (fetchPage (fun n => n.id) ns (some cN) 100).map (fun n => n.id)
          ∧ ∀ i ∈ (fetchPage (fun n => n.id) ns (some cN) 100).map (fun n => n.id), i ≤ m)
    ∧ (fetchPage (fun t => t.id) hs (some cH) 100 ≠ [] →
        ∃ m tl, (homePass hs addr hChat (some cH) meId).trace
              = Act.persistHome addr m :: tl
          ∧ (homePass hs addr hChat (some cH) meId).cursor = some m
          ∧ m ∈ (fetchPage (fun t => t.id) hs (some cH) 100).map (fun t => t.id)
          ∧ ∀ i ∈ (fetchPage (fun t => t.id) hs (some cH) 100).map (fun t => t.id), i ≤ m) :=
  by
  refine ⟨?_, ?_, ?_, ?_⟩
  · intro i hi
    have hin := checkNotifications_delivers_from_batch addr nChat (some cN) muted
      (fetchPage (fun n => n.id) ns (some cN) 100) store nid i hi
    obtain ⟨n, hn, hid⟩ := List.mem_map.mp hin
    subst hid
    have := (fetchPage_mem _ _ _ _ _ hn).2
    simpa [newerThan] using this
  · intro i hi
    have hin := checkHome_delivers_from_batch addr hChat (some cH) meId
      (fetchPage (fun t => t.id) hs (some cH) 100) i hi
    obtain ⟨t, ht, hid⟩ := List.mem_map.mp hin
    subst hid
    have := (fetchPage_mem _ _ _ _ _ ht).2
    simpa [newerThan] using this
  · intro hne
    rcases hfe : fetchPage (fun n => n.id) ns (some cN) 100 with _ | ⟨t0, rest⟩
    · exact absurd hfe hne
    · refine ⟨t0.id, ((notifPass ns addr nChat (some cN) muted store nid).trace).tail,
        ?_, ?_, ?_, ?_⟩
      · simp [notifPass, hfe, checkNotifications]
      · simp [notifPass, hfe, checkNotifications]
      · rw [hfe]
        exact List.mem_map_of_mem _ (List.mem_cons_self _ _)
      · intro i hmem
        rw [hfe] at hmem
        obtain ⟨x, hx, hxeq⟩ := List.mem_map.mp hmem
        subst hxeq
        have := fetchPage_head_max (fun n => n.id) ns (some cN) 100 t0 rest hfe hns
        exact this x (hfe ▸ hx)
  · intro hne
    rcases hfe : fetchPage (fun t => t.id) hs (some cH) 100 with _ | ⟨t0, rest⟩
    · exact absurd hfe hne
    · refine ⟨t0.id, ((homePass hs addr hChat (some cH) meId).trace).tail, ?_, ?_, ?_, ?_⟩
      · simp [homePass, hfe, checkHome]
      · simp [homePass, hfe, checkHome]
      · rw [hfe]
        exact List.mem_map_of_mem _ (List.mem_cons_self _ _)
      · intro i hmem
        rw [hfe] at hmem
        obtain ⟨x, hx, hxeq⟩ := List.mem_map.mp hmem
        subst hxeq
        have := fetchPage_head_max (fun t => t.id) hs (some cH) 100 t0 rest hfe hhs
        exact this x (hfe ▸ hx)

/-- Witness for C1 at a concrete input: one new notification (id 105) and
one new home post (id 106) above cursors 100. -/
theorem C1_cursor_before_delivery_witness :
    (List.Pairwise (· > ·) ([demoFollow 105].map fun n => n.id)
      ∧ List.Pairwise (· > ·) ([demoToot 106].map fun t => t.id))
    ∧ ((∀ i ∈ traceNotifIds
          (notifPass [demoFollow 105] "a@x" 7 (some 100) false [] 1).trace, 100 < i)
      ∧ (∀ i ∈ traceHomeIds (homePass [demoToot 106] "a@x" 8 (some 100) 555).trace, 100 < i)
      ∧ (fetchPage (fun n => n.id) [demoFollow 105] (some 100) 100 ≠ [] →
          ∃ m tl, (notifPass [demoFollow 105] "a@x" 7 (some 100) false [] 1).trace
                = Act.persistNotif "a@x" m :: tl
            ∧ (notifPass [demoFollow 105] "a@x" 7 (some 100) false [] 1).cursor = some m
            ∧ m ∈ (fetchPage (fun n => n.id) [demoFollow 105] (some 100) 100).map
                (fun n => n.id)
            ∧ ∀ i ∈ (fetchPage (fun n => n.id) [demoFollow 105] (some 100) 100).map
                (fun n => n.id), i ≤ m)
      ∧ (fetchPage (fun t => t.id) [demoToot 106] (some 100) 100 ≠ [] →
          ∃ m tl, (homePass [demoToot 106] "a@x" 8 (some 100) 555).trace
                = Act.persistHome "a@x" m :: tl
            ∧ (homePass [demoToot 106] "a@x" 8 (some 100) 555).cursor = some m
            ∧ m ∈ (fetchPage (fun t => t.id) [demoToot 106] (some 100) 100).map
                (fun t => t.id)
            ∧ ∀ i ∈ (fetchPage (fun t => t.id) [demoToot 106] (some 100) 100).map
                (fun t => t.id), i ≤ m)) :=
  ⟨⟨by decide, by decide⟩,
    C1_cursor_before_delivery [demoFollow 105] [demoToot 106] "a@x" 7 8 100 100 false [] 1 555
      (by decide) (by decide)⟩

/-- __init__.py `m_login` lines 113-114: `n = m.notifications(limit=1);
last_notif = n[0].id if n else None` — at login the notification cursor is
primed to the newest existing notification id, or NULL when none exists. -/
def loginPrimeNotif (server : List Notification) : Option Nat :=
  ((fetchPage (fun n => n.id) server none 1).head?).map fun n => n.id

/-- __init__.py `m_login` lines 115-116: the home-timeline analogue of
`loginPrimeNotif`. -/
def loginPrimeHome (server : List Toot) : Option Nat :=
  ((fetchPage (fun t => t.id) server none 1).head?).map fun t => t.id

theorem loginPrimeNotif_nil : loginPrimeNotif [] = none := by decide

theorem loginPrimeNotif_cons (o0 : Notification) (os : List Notification) :
    loginPrimeNotif (o0 :: os) = some o0.id := by
  simp [loginPrimeNotif, fetchPage, newerThan]

/-- C2 counterexample: a freshly created account with no notifications at
login has a NULL cursor; a first sync pass whose fetch returns nothing
delivers zero events but leaves the cursor NULL, not non-null — the claim's
"leaves the account with a non-null cursor" fails. -/
theorem C2_null_cursor_counterexample :
    loginPrimeNotif [] = none
    ∧ (notifPass [] "a@x" 7 (loginPrimeNotif []) false [] 1).trace = []
    ∧ (notifPass [] "a@x" 7 (loginPrimeNotif []) false [] 1).cursor = none := by
  decide

/-- C2 amended: after `m_login` primes the cursor, the first sync pass
fetches (and hence delivers) only events that arrived after login; when the
first fetched page is non-empty the cursor becomes its newest id, and when
the fetch is empty the cursor keeps its login-time value — in particular it
stays NULL for an account that was created with no notifications and has
received none since. -/
theorem C2_first_sync_amended
    (newEvents loginServer : List Notification) (addr : String) (nChat : Nat)
    (muted : Bool) (store : List DmChatRec) (nid : Nat)
    (hsync : List.Pairwise (· > ·) ((newEvents ++ loginServer).map fun n => n.id)) :
    (∀ n ∈ fetchPage (fun n => n.id) (newEvents ++ loginServer)
        (loginPrimeNotif loginServer) 100, n ∈ newEvents)
    ∧ (∀ i ∈ traceNotifIds (notifPass (newEvents ++ loginServer) addr nChat
          (loginPrimeNotif loginServer) muted store nid).trace,
        i ∈ newEvents.map fun n => n.id)
    ∧ (fetchPage (fun n => n.id) (newEvents ++ loginServer)
          (loginPrimeNotif loginServer) 100 = [] →
        (notifPass (newEvents ++ loginServer) addr nChat
          (loginPrimeNotif loginServer) muted store nid).cursor
          = loginPrimeNotif loginServer)
    ∧ (∀ t0 rest, fetchPage (fun n => n.id) (newEvents ++ loginServer)
          (loginPrimeNotif loginServer) 100 = t0 :: rest →
        (notifPass (newEvents ++ loginServer) addr nChat
          (loginPrimeNotif loginServer) muted store nid).cursor = some t0.id
          ∧ ∀ i ∈ (fetchPage (fun n => n.id) (newEvents ++ loginServer)
              (loginPrimeNotif loginServer) 100).map (fun n => n.id), i ≤ t0.id) := by
  have hfetchnew : ∀ n ∈ fetchPage (fun n => n.id) (newEvents ++ loginServer)
      (loginPrimeNotif loginServer) 100, n ∈ newEvents := by
    intro n hn
    obtain ⟨hmem, hnewer⟩ := fetchPage_mem _ _ _ _ _ hn
    cases loginServer with
    | nil => simpa using hmem
    | cons o0 os =>
      rcases List.mem_append.mp hmem with h | h
      · exact h
      · exfalso
        rw [loginPrimeNotif_cons] at hnewer
        have hlt : o0.id < n.id := by simpa [newerThan] using hnewer
        rw [List.map_append, List.pairwise_append] at hsync
        rcases List.mem_cons.mp h with h2 | h2
        · subst h2
          exact lt_irrefl _ hlt
        · have := (List.pairwise_cons.mp hsync.2.1).1 n.id (List.mem_map_of_mem _ h2)
          exact lt_asymm hlt this
  refine ⟨hfetchnew, ?_, ?_, ?_⟩
  · intro i hi
    have hin := checkNotifications_delivers_from_batch addr nChat
      (loginPrimeNotif loginServer) muted _ store nid i hi
    obtain ⟨n, hn, hid⟩ := List.mem_map.mp hin
    subst hid
    exact List.mem_map_of_mem _ (hfetchnew n hn)
  · intro hfe
    simp [notifPass, hfe, checkNotifications]
  · intro t0 rest hfe
    constructor
    · simp [notifPass, hfe, checkNotifications]
    · intro i hmem
      obtain ⟨x, hx, hxeq⟩ := List.mem_map.mp hmem
      subst hxeq
      exact fetchPage_head_max (fun n => n.id) _ _ 100 t0 rest hfe hsync x hx

/-- Witness for the amended C2: login sees notification 50, events 105
arrives later; the first sync delivers only 105 and sets the cursor to
105. -/
theorem C2_first_sync_amended_witness :
    List.Pairwise (· > ·) (([demoFollow 105] ++ [demoFollow 50]).map fun n => n.id)
    ∧ ((∀ n ∈ fetchPage (fun n => n.id) ([demoFollow 105] ++ [demoFollow 50])
          (loginPrimeNotif [demoFollow 50]) 100, n ∈ [demoFollow 105])
      ∧ (∀ i ∈ traceNotifIds (notifPass ([demoFollow 105] ++ [demoFollow 50]) "a@x" 7
            (loginPrimeNotif [demoFollow 50]) false [] 1).trace,
          i ∈ [demoFollow 105].map fun n => n.id)
      ∧ (fetchPage (fun n => n.id) ([demoFollow 105] ++ [demoFollow 50])
            (loginPrimeNotif [demoFollow 50]) 100 = [] →
          (notifPass ([demoFollow 105] ++ [demoFollow 50]) "a@x" 7
            (loginPrimeNotif [demoFollow 50]) false [] 1).cursor
            = loginPrimeNotif [demoFollow 50])
      ∧ (∀ t0 rest, fetchPage (fun n => n.id) ([demoFollow 105] ++ [demoFollow 50])
            (loginPrimeNotif [demoFollow 50]) 100 = t0 :: rest →
          (notifPass ([demoFollow 105] ++ [demoFollow 50]) "a@x" 7
            (loginPrimeNotif [demoFollow 50]) false [] 1).cursor = some t0.id
            ∧ ∀ i ∈ (fetchPage (fun n => n.id) ([demoFollow 105] ++ [demoFollow 50])
                (loginPrimeNotif [demoFollow 50]) 100).map (fun n => n.id), i ≤ t0.id)) :=
  ⟨by decide,
    C2_first_sync_amended [demoFollow 105] [demoFollow 50] "a@x" 7 false [] 1 (by decide)⟩

/-- A direct mention (visibility "direct", exactly one mentioned account)
whose content contains a SPAM keyword. -/
def spamStatus : Toot :=
  ⟨10, accB, "direct", [accA], "see /fediversechick/ now", "u", "t"⟩

/-- The spam mention notification built on `spamStatus`. -/
def spamMention : Notification := ⟨3, "mention", accB, spamStatus⟩

/-- C3 counterexample: `spamMention` is a mention of a direct post with
exactly one recipient — it satisfies all three of the claim's conditions —
yet the classifier neither routes it as a direct message (the DM work list
stays empty) nor delivers it via the mentions path (it is dropped
entirely), because its content matches the hard-coded SPAM keyword list. -/
theorem C3_dm_iff_counterexample :
    isDmNotification spamMention = true
    ∧ (classifyNotifs false [spamMention]).1 = []
    ∧ (classifyNotifs false [spamMention]).2 = []
    ∧ (groupNotifications (classifyNotifs false [spamMention]).2).mentions = [] := by
  decide

/-- C3 amended: an event is routed as a direct message iff it is a mention
of a "direct"-visibility post with exactly one mentioned account *and* its
content matches no SPAM keyword; a qualifying mention with spam content is
dropped entirely, and a mention failing the visibility/unique-recipient
test goes to the mentions path (as does any event of unrecognized kind that
survives the mute filter). -/
theorem C3_dm_classification_amended (muted : Bool) (toots : List Notification)
    (s : Notification) :
    (s ∈ (classifyNotifs muted toots).1
      ↔ s ∈ toots ∧ s.kind = "mention" ∧ s.status.visibility = "direct"
          ∧ s.status.mentions.length = 1 ∧ isSpamContent s.status.content = false)
    ∧ (s ∈ (groupNotifications (classifyNotifs muted toots).2).mentions
      ↔ s ∈ toots ∧ isDmNotification s = false
          ∧ (muted = false ∨ s.kind ∉ MUTED_NOTIFICATIONS)
          ∧ s.kind ≠ "reblog" ∧ s.kind ≠ "favourite" ∧ s.kind ≠ "follow") := by
  constructor
  · rw [classifyNotifs_fst]
    simp [List.mem_filter, isDmNotification, and_assoc]
  · have hm := groupGo_mentions ⟨[], [], [], []⟩ ((classifyNotifs muted toots).2).reverse
    simp only [groupNotifications]
    rw [hm]
    simp only [List.nil_append, List.mem_filter, List.mem_reverse, classifyNotifs_snd]
    simp [isDmNotification, and_assoc, Bool.not_eq_true]
    tauto

/-- A status carried by an unrecognized-kind notification. -/
def pollStatus : Toot := ⟨20, accB, "public", [], "poll body", "u", "t"⟩

/-- A notification of the unrecognized kind "poll". -/
def pollNotif : Notification := ⟨4, "poll", accB, pollStatus⟩

/-- C4 counterexample: a notification of unrecognized kind "poll" is not
dropped by the sync pass — its status is delivered to the notifications
chat through the mentions path (the grouping loop's `else` branch catches
every kind that is not reblog/favourite/follow). -/
theorem C4_unknown_kind_counterexample :
    (checkNotifications "a@x" 7 (some 1) false [pollNotif] [] 1).trace
      = [Act.persistNotif "a@x" 4, Act.deliverMention 7 pollNotif] := by
  decide

/-- C4 amended: an unrecognized-kind notification is *not* silently
dropped: it survives classification (its kind is never in
`MUTED_NOTIFICATIONS`), falls into the grouping loop's `else` branch, and
is delivered to the notifications chat exactly like a mention.  Only
`notif2reply` — which the sync pass never reaches with such an event —
maps an unsupported-kind group to an empty reply. -/
theorem C4_unknown_kind_amended (addr : String) (nChat : Nat) (lastId : Option Nat)
    (muted : Bool) (toots : List Notification) (store : List DmChatRec) (nid : Nat)
    (n : Notification) (hn : n ∈ toots)
    (hk : n.kind ∉ ["mention", "reblog", "favourite", "follow"]) :
    Act.deliverMention nChat n
        ∈ (checkNotifications addr nChat lastId muted toots store nid).trace
    ∧ ∀ g : List Notification, notif2reply (n :: g) = none := by
  simp only [List.mem_cons, not_or] at hk
  obtain ⟨hk1, hk2, hk3, hk4, _⟩ := hk
  constructor
  · have hdm : isDmNotification n = false := by
      simp [isDmNotification, hk1]
    have hsnd : n ∈ (classifyNotifs muted toots).2 := by
      rw [classifyNotifs_snd]
      refine List.mem_filter.mpr ⟨hn, ?_⟩
      simp [hdm, MUTED_NOTIFICATIONS, hk2, hk3, hk4]
    have hmen : n ∈ (groupNotifications (classifyNotifs muted toots).2).mentions := by
      have hm := groupGo_mentions ⟨[], [], [], []⟩ ((classifyNotifs muted toots).2).reverse
      simp only [groupNotifications]
      rw [hm]
      simp only [List.nil_append, List.mem_filter, List.mem_reverse]
      refine ⟨hsnd, ?_⟩
      simp [hk2, hk3, hk4]
    cases toots with
    | nil => simp at hn
    | cons t0 ts =>
      have hmm : Act.deliverMention nChat n
          ∈ (groupNotifications (classifyNotifs muted (t0 :: ts)).2).mentions.map
            (fun n => Act.deliverMention nChat n) := List.mem_map_of_mem _ hmen
      simp only [checkNotifications, List.mem_cons, List.mem_append]
      tauto
  · intro g
    simp [notif2reply, hk2, hk3, hk4]

/-- Witness for the amended C4: the concrete "poll" notification is
delivered via the mentions path and `notif2reply` would drop it. -/
theorem C4_unknown_kind_amended_witness :
    (pollNotif ∈ [pollNotif]
      ∧ pollNotif.kind ∉ ["mention", "reblog", "favourite", "follow"])
    ∧ (Act.deliverMention 7 pollNotif
        ∈ (checkNotifications "a@x" 7 (some 1) false [pollNotif] [] 1).trace
      ∧ ∀ g : List Notification, notif2reply (pollNotif :: g) = none) :=
  ⟨⟨by decide, by decide⟩,
    C4_unknown_kind_amended "a@x" 7 (some 1) false [pollNotif] [] 1 pollNotif
      (by decide) (by decide)⟩

theorem filterMap_length_of_isSome {α β : Type} (f : α → Option β) (L : List α)
    (h : ∀ x ∈ L, (f x).isSome) : (L.filterMap f).length = L.length := by
  induction L with
  | nil => simp
  | cons x rest ih =>
    have hx := h x (List.mem_cons_self _ _)
    obtain ⟨y, hy⟩ := Option.isSome_iff_exists.mp hx
    simp only [List.filterMap_cons, hy, List.length_cons]
    rw [ih fun z hz => h z (List.mem_cons_of_mem _ hz)]

theorem reblog_pair_shape (l : List Notification) (k : Nat) (grp : List Notification)
    (hmem : (k, grp) ∈ (groupNotifications l).reblogs) :
    grp ≠ [] ∧ ∀ t ∈ grp, t.kind = "reblog" ∧ t.status.id = k := by
  have heq := groupNotifications_reblogs_eq l k grp hmem
  constructor
  · have hk : k ∈ assocKeys (groupNotifications l).reblogs := by
      simp only [assocKeys, List.mem_map]
      exact ⟨(k, grp), hmem, rfl⟩
    have := (groupGo_reblogs_keys_mem ⟨[], [], [], []⟩ l.reverse k).mp (by
      simpa [groupNotifications] using hk)
    simp only [assocKeys_nil, List.not_mem_nil, false_or] at this
    obtain ⟨t, ht, hteq⟩ := List.mem_map.mp this
    intro hnil
    rw [heq] at hnil
    have : t ∈ (l.reverse.filter fun t => t.kind == "reblog" && t.status.id == k) := by
      refine List.mem_filter.mpr ⟨(List.mem_filter.mp ht).1, ?_⟩
      have := (List.mem_filter.mp ht).2
      simp only [Bool.and_eq_true, beq_iff_eq]
      exact ⟨by simpa using this, hteq⟩
    rw [hnil] at this
    simp at this
  · intro t ht
    rw [heq] at ht
    have := (List.mem_filter.mp ht).2
    simpa using this

theorem fav_pair_shape (l : List Notification) (k : Nat) (grp : List Notification)
    (hmem : (k, grp) ∈ (groupNotifications l).favs) :
    grp ≠ [] ∧ ∀ t ∈ grp, t.kind = "favourite" ∧ t.status.id = k := by
  have heq := groupNotifications_favs_eq l k grp hmem
  constructor
  · have hk : k ∈ assocKeys (groupNotifications l).favs := by
      simp only [assocKeys, List.mem_map]
      exact ⟨(k, grp), hmem, rfl⟩
    have := (groupGo_favs_keys_mem ⟨[], [], [], []⟩ l.reverse k).mp (by
      simpa [groupNotifications] using hk)
    simp only [assocKeys_nil, List.not_mem_nil, false_or] at this
    obtain ⟨t, ht, hteq⟩ := List.mem_map.mp this
    intro hnil
    rw [heq] at hnil
    have : t ∈ (l.reverse.filter fun t => t.kind == "favourite" && t.status.id == k) := by
      refine List.mem_filter.mpr ⟨(List.mem_filter.mp ht).1, ?_⟩
      have := (List.mem_filter.mp ht).2
      simp only [Bool.and_eq_true, beq_iff_eq]
      exact ⟨by simpa using this, hteq⟩
    rw [hnil] at this
    simp at this
  · intro t ht
    rw [heq] at ht
    have := (List.mem_filter.mp ht).2
    simpa using this

theorem notif2reply_reblog (grp : List Notification) (t0 : Notification)
    (rest : List Notification) (hgrp : grp = t0 :: rest) (hk : t0.kind = "reblog") :
    notif2reply grp = some ("🔁 "
      ++ String.intercalate ", " (grp.map fun t => getName t.account)
      ++ " boosted your toot." ++ tootMeta t0.status) := by
  subst hgrp
  simp [notif2reply, hk]

theorem notif2reply_fav (grp : List Notification) (t0 : Notification)
    (rest : List Notification) (hgrp : grp = t0 :: rest) (hk : t0.kind = "favourite") :
    notif2reply grp = some ("⭐ "
      ++ String.intercalate ", " (grp.map fun t => getName t.account)
      ++ " favorited your toot." ++ tootMeta t0.status) := by
  subst hgrp
  simp [notif2reply, hk]

theorem notif2reply_follow (grp : List Notification) (t0 : Notification)
    (rest : List Notification) (hgrp : grp = t0 :: rest) (hk : t0.kind = "follow") :
    notif2reply grp = some ("👤 "
      ++ String.intercalate ", " (grp.map fun t => getName t.account)
      ++ " followed you.") := by
  subst hgrp
  simp [notif2reply, hk]

theorem reblogs_length (l : List Notification) :
    (groupNotifications l).reblogs.length
      = ((l.filter fun t => t.kind == "reblog").map fun t => t.status.id).toFinset.card := by
  have hnd : (assocKeys (groupNotifications l).reblogs).Nodup :=
    groupGo_reblogs_keys_nodup _ _ (by simp [assocKeys_nil])
  have hlen : (groupNotifications l).reblogs.length
      = (assocKeys (groupNotifications l).reblogs).length := by
    simp [assocKeys]
  rw [hlen, ← List.toFinset_card_of_nodup hnd]
  congr 1
  ext k
  simp only [List.mem_toFinset]
  have hmem := groupGo_reblogs_keys_mem ⟨[], [], [], []⟩ l.reverse k
  simp only [assocKeys_nil, List.not_mem_nil, false_or] at hmem
  rw [show (groupNotifications l).reblogs = (groupGo ⟨[], [], [], []⟩ l.reverse).reblogs
    from rfl]
  rw [hmem]
  simp only [List.mem_map, List.mem_filter, List.mem_reverse]

theorem favs_length (l : List Notification) :
    (groupNotifications l).favs.length
      = ((l.filter fun t => t.kind == "favourite").map fun t => t.status.id).toFinset.card := by
  have hnd : (assocKeys (groupNotifications l).favs).Nodup :=
    groupGo_favs_keys_nodup _ _ (by simp [assocKeys_nil])
  have hlen : (groupNotifications l).favs.length
      = (assocKeys (groupNotifications l).favs).length := by
    simp [assocKeys]
  rw [hlen, ← List.toFinset_card_of_nodup hnd]
  congr 1
  ext k
  simp only [List.mem_toFinset]
  have hmem := groupGo_favs_keys_mem ⟨[], [], [], []⟩ l.reverse k
  simp only [assocKeys_nil, List.not_mem_nil, false_or] at hmem
  rw [show (groupNotifications l).favs = (groupGo ⟨[], [], [], []⟩ l.reverse).favs
    from rfl]
  rw [hmem]
  simp only [List.mem_map, List.mem_filter, List.mem_reverse]

theorem groupNotifications_follows (l : List Notification) :
    (groupNotifications l).follows = l.reverse.filter fun t => t.kind == "follow" := by
  have := groupGo_follows ⟨[], [], [], []⟩ l.reverse
  simpa [groupNotifications] using this

theorem reblog_batch_isSome (l : List Notification) :
    ∀ grp ∈ (groupNotifications l).reblogs.map Prod.snd, (notif2reply grp).isSome := by
  intro grp hgrp
  obtain ⟨⟨k, grp2⟩, hmem, heq⟩ := List.mem_map.mp hgrp
  simp only at heq
  subst heq
  obtain ⟨hne, hall⟩ := reblog_pair_shape l k grp2 hmem
  cases hg : grp2 with
  | nil => exact absurd hg hne
  | cons t0 rest =>
    rw [show notif2reply (t0 :: rest) = _ from hg ▸
      notif2reply_reblog grp2 t0 rest hg (hall t0 (hg ▸ List.mem_cons_self _ _)).1]
    rfl

theorem fav_batch_isSome (l : List Notification) :
    ∀ grp ∈ (groupNotifications l).favs.map Prod.snd, (notif2reply grp).isSome := by
  intro grp hgrp
  obtain ⟨⟨k, grp2⟩, hmem, heq⟩ := List.mem_map.mp hgrp
  simp only at heq
  subst heq
  obtain ⟨hne, hall⟩ := fav_pair_shape l k grp2 hmem
  cases hg : grp2 with
  | nil => exact absurd hg hne
  | cons t0 rest =>
    rw [show notif2reply (t0 :: rest) = _ from hg ▸
      notif2reply_fav grp2 t0 rest hg (hall t0 (hg ▸ List.mem_cons_self _ _)).1]
    rfl

theorem any_follow_iff (l : List Notification) :
    (l.any fun t => t.kind == "follow") = true ↔ (groupNotifications l).follows ≠ [] := by
  rw [groupNotifications_follows, Ne, List.filter_eq_nil_iff]
  simp [List.any_eq_true, List.mem_reverse]

/-- One favourite event on the post `demoToot 77` by the given actor. -/
def demoFav (i : Nat) (a : MAccount) : Notification := ⟨i, "favourite", a, demoToot 77⟩

/-- Three favourite events on the same post by distinct actors, newest
first as the API returns them. -/
def demoFavBatch : List Notification :=
  [demoFav 13 accC, demoFav 12 accB, demoFav 11 accA]

/-- C5: grouped notifications — reblog and favourite events are grouped by
(kind, target post id) and every group is rendered as exactly one summary
reply naming all of the group's actors oldest-first; all follow events form
one batch item; in total the pass emits one reply per distinct (kind, post)
pair plus one for follows.  Concretely, three favourite events on the same
post by distinct actors produce exactly one delivered message listing all
three actors. -/
theorem C5_grouped_notifications (l : List Notification) :
    ((groupBatches (groupNotifications l)).filterMap notif2reply).length
        = ((l.filter fun t => t.kind == "reblog").map fun t => t.status.id).toFinset.card
          + ((l.filter fun t => t.kind == "favourite").map fun t => t.status.id).toFinset.card
          + (if (l.any fun t => t.kind == "follow") = true then 1 else 0)
    ∧ (∀ k grp, (k, grp) ∈ (groupNotifications l).favs →
        grp = l.reverse.filter (fun t => t.kind == "favourite" && t.status.id == k)
        ∧ ∀ t0 rest, grp = t0 :: rest →
            notif2reply grp = some ("⭐ "
              ++ String.intercalate ", " (grp.map fun t => getName t.account)
              ++ " favorited your toot." ++ tootMeta t0.status))
    ∧ (∀ k grp, (k, grp) ∈ (groupNotifications l).reblogs →
        grp = l.reverse.filter (fun t => t.kind == "reblog" && t.status.id == k)
        ∧ ∀ t0 rest, grp = t0 :: rest →
            notif2reply grp = some ("🔁 "
              ++ String.intercalate ", " (grp.map fun t => getName t.account)
              ++ " boosted your toot." ++ tootMeta t0.status))
    ∧ (groupNotifications l).follows = (l.reverse.filter fun t => t.kind == "follow")
    ∧ (checkNotifications "a@x" 7 (some 1) false demoFavBatch [] 1).trace
        = [Act.persistNotif "a@x" 13,
           Act.deliverGroup 7 [demoFav 11 accA, demoFav 12 accB, demoFav 13 accC]
             ("⭐ alice, Bob (@bob), carol favorited your toot."
               ++ tootMeta (demoToot 77))] := by
  refine ⟨?_, ?_, ?_, groupNotifications_follows l, by decide⟩
  · have hA : (((groupNotifications l).reblogs.map Prod.snd).filterMap notif2reply).length
        = (groupNotifications l).reblogs.length := by
      rw [filterMap_length_of_isSome _ _ (reblog_batch_isSome l), List.length_map]
    have hB : (((groupNotifications l).favs.map Prod.snd).filterMap notif2reply).length
        = (groupNotifications l).favs.length := by
      rw [filterMap_length_of_isSome _ _ (fav_batch_isSome l), List.length_map]
    simp only [groupBatches, List.filterMap_append, List.length_append]
    rw [hA, hB, reblogs_length, favs_length]
    congr 1
    by_cases hf : (groupNotifications l).follows = []
    · have hany : ¬ (l.any fun t => t.kind == "follow") = true := by
        rw [any_follow_iff]
        simpa using hf
      simp [hf, hany]
    · have hany : (l.any fun t => t.kind == "follow") = true := (any_follow_iff l).mpr hf
      cases hfol : (groupNotifications l).follows with
      | nil => exact absurd hfol hf
      | cons t0 rest =>
        have ht0 : t0.kind = "follow" := by
          have : t0 ∈ (groupNotifications l).follows := hfol ▸ List.mem_cons_self _ _
          rw [groupNotifications_follows] at this
          simpa using (List.mem_filter.mp this).2
        have hrep := notif2reply_follow ((groupNotifications l).follows) t0 rest hfol ht0
        have hne : (groupNotifications l).follows.isEmpty = false := by
          simp [hfol]
        rw [hfol] at hrep
        simp [hne, hany, List.filterMap_cons, hrep]
  · intro k grp hmem
    refine ⟨groupNotifications_favs_eq l k grp hmem, ?_⟩
    intro t0 rest hgrp
    exact notif2reply_fav grp t0 rest hgrp
      ((fav_pair_shape l k grp hmem).2 t0 (hgrp ▸ List.mem_cons_self _ _)).1
  · intro k grp hmem
    refine ⟨groupNotifications_reblogs_eq l k grp hmem, ?_⟩
    intro t0 rest hgrp
    exact notif2reply_reblog grp t0 rest hgrp
      ((reblog_pair_shape l k grp hmem).2 t0 (hgrp ▸ List.mem_cons_self _ _)).1

/-- Witness for C5 at the three-favourites scenario: the single favourite
group of the batch is exactly the three events oldest-first and renders to
one summary naming all three actors. -/
theorem C5_grouped_notifications_witness :
    ((77, [demoFav 11 accA, demoFav 12 accB, demoFav 13 accC])
        ∈ (groupNotifications demoFavBatch).favs)
    ∧ ([demoFav 11 accA, demoFav 12 accB, demoFav 13 accC]
          = demoFavBatch.reverse.filter
              (fun t => t.kind == "favourite" && t.status.id == 77)
        ∧ ∀ t0 rest, [demoFav 11 accA, demoFav 12 accB, demoFav 13 accC] = t0 :: rest →
            notif2reply [demoFav 11 accA, demoFav 12 accB, demoFav 13 accC]
              = some ("⭐ "
                ++ String.intercalate ", "
                    ([demoFav 11 accA, demoFav 12 accB, demoFav 13 accC].map
                      fun t => getName t.account)
                ++ " favorited your toot." ++ tootMeta t0.status)) :=
  ⟨by decide,
    (C5_grouped_notifications demoFavBatch).2.1 77
      [demoFav 11 accA, demoFav 12 accB, demoFav 13 accC] (by decide)⟩

/-- The mention events delivered by a trace, in delivery order. -/
def mentionPayloads : List Act → List Notification
  | [] => []
  | .deliverMention _ n :: tr => n :: mentionPayloads tr
  | .persistNotif _ _ :: tr => mentionPayloads tr
  | .persistHome _ _ :: tr => mentionPayloads tr
  | .createChat _ _ :: tr => mentionPayloads tr
  | .deliverDm _ _ :: tr => mentionPayloads tr
  | .deliverGroup _ _ _ :: tr => mentionPayloads tr
  | .deliverHome _ _ :: tr => mentionPayloads tr
  | .leaveChat _ :: tr => mentionPayloads tr
  | .sendLogout _ :: tr => mentionPayloads tr
  | .sendAccountError _ :: tr => mentionPayloads tr
  | .logChecking _ :: tr => mentionPayloads tr

/-- The home posts delivered by a trace, in delivery order. -/
def homePayloads : List Act → List Toot
  | [] => []
  | .deliverHome _ t :: tr => t :: homePayloads tr
  | .persistNotif _ _ :: tr => homePayloads tr
  | .persistHome _ _ :: tr => homePayloads tr
  | .createChat _ _ :: tr => homePayloads tr
  | .deliverDm _ _ :: tr => homePayloads tr
  | .deliverGroup _ _ _ :: tr => homePayloads tr
  | .deliverMention _ _ :: tr => homePayloads tr
  | .leaveChat _ :: tr => homePayloads tr
  | .sendLogout _ :: tr => homePayloads tr
  | .sendAccountError _ :: tr => homePayloads tr
  | .logChecking _ :: tr => homePayloads tr

/-- The notification groups delivered by a trace, in delivery order. -/
def groupPayloads : List Act → List (List Notification)
  | [] => []
  | .deliverGroup _ grp _ :: tr => grp :: groupPayloads tr
  | .persistNotif _ _ :: tr => groupPayloads tr
  | .persistHome _ _ :: tr => groupPayloads tr
  | .createChat _ _ :: tr => groupPayloads tr
  | .deliverDm _ _ :: tr => groupPayloads tr
  | .deliverMention _ _ :: tr => groupPayloads tr
  | .deliverHome _ _ :: tr => groupPayloads tr
  | .leaveChat _ :: tr => groupPayloads tr
  | .sendLogout _ :: tr => groupPayloads tr
  | .sendAccountError _ :: tr => groupPayloads tr
  | .logChecking _ :: tr => groupPayloads tr

theorem dmPayloads_append (l1 l2 : List Act) :
    dmPayloads (l1 ++ l2) = dmPayloads l1 ++ dmPayloads l2 := by
  induction l1 with
  | nil => simp [dmPayloads]
  | cons a tr ih => cases a <;> simp [dmPayloads, ih]

theorem mentionPayloads_append (l1 l2 : List Act) :
    mentionPayloads (l1 ++ l2) = mentionPayloads l1 ++ mentionPayloads l2 := by
  induction l1 with
  | nil => simp [mentionPayloads]
  | cons a tr ih => cases a <;> simp [mentionPayloads, ih]

theorem groupPayloads_append (l1 l2 : List Act) :
    groupPayloads (l1 ++ l2) = groupPayloads l1 ++ groupPayloads l2 := by
  induction l1 with
  | nil => simp [groupPayloads]
  | cons a tr ih => cases a <;> simp [groupPayloads, ih]

theorem dmPayloads_handleDms_trace (addr : String) (dms : List Notification)
    (store : List DmChatRec) (nextId : Nat) :
    dmPayloads (handleDms addr dms store nextId).2.2 = dms.reverse :=
  handleDmsGo_dmPayloads addr dms.reverse store nextId []

theorem mentionPayloads_handleDms (addr : String) (l : List Notification)
    (store : List DmChatRec) (nextId : Nat) (cache : List (String × Nat)) :
    mentionPayloads (handleDmsGo addr l store nextId cache).2.2 = [] := by
  induction l generalizing store nextId cache with
  | nil => simp [handleDmsGo, mentionPayloads]
  | cons dm rest ih =>
    by_cases hc : resolveChatId addr store cache dm.status.account.acct = 0
    · simp [handleDmsGo, hc, mentionPayloads, ih]
    · simp [handleDmsGo, hc, mentionPayloads, ih]

theorem groupPayloads_handleDms (addr : String) (l : List Notification)
    (store : List DmChatRec) (nextId : Nat) (cache : List (String × Nat)) :
    groupPayloads (handleDmsGo addr l store nextId cache).2.2 = [] := by
  induction l generalizing store nextId cache with
  | nil => simp [handleDmsGo, groupPayloads]
  | cons dm rest ih =>
    by_cases hc : resolveChatId addr store cache dm.status.account.acct = 0
    · simp [handleDmsGo, hc, groupPayloads, ih]
    · simp [handleDmsGo, hc, groupPayloads, ih]

theorem groupPayloads_groupTrace (chat : Nat) (batches : List (List Notification)) :
    groupPayloads (batches.filterMap fun grp =>
        (notif2reply grp).map fun text => Act.deliverGroup chat grp text)
      = batches.filter fun grp => (notif2reply grp).isSome := by
  induction batches with
  | nil => simp [groupPayloads]
  | cons grp rest ih =>
    cases hrep : notif2reply grp with
    | none => simp [List.filterMap_cons, hrep, List.filter_cons, ih]
    | some text => simp [List.filterMap_cons, hrep, List.filter_cons, groupPayloads, ih]

theorem dmPayloads_groupTrace (chat : Nat) (batches : List (List Notification)) :
    dmPayloads (batches.filterMap fun grp =>
        (notif2reply grp).map fun text => Act.deliverGroup chat grp text) = [] := by
  induction batches with
  | nil => simp [dmPayloads]
  | cons grp rest ih =>
    cases hrep : notif2reply grp with
    | none => simp [List.filterMap_cons, hrep, ih]
    | some text => simp [List.filterMap_cons, hrep, dmPayloads, ih]

theorem mentionPayloads_groupTrace (chat : Nat) (batches : List (List Notification)) :
    mentionPayloads (batches.filterMap fun grp =>
        (notif2reply grp).map fun text => Act.deliverGroup chat grp text) = [] := by
  induction batches with
  | nil => simp [mentionPayloads]
  | cons grp rest ih =>
    cases hrep : notif2reply grp with
    | none => simp [List.filterMap_cons, hrep, ih]
    | some text => simp [List.filterMap_cons, hrep, mentionPayloads, ih]

theorem mentionPayloads_mentionTrace (chat : Nat) (mentions : List Notification) :
    mentionPayloads (mentions.map fun n => Act.deliverMention chat n) = mentions := by
  induction mentions with
  | nil => simp [mentionPayloads]
  | cons n rest ih => simp [mentionPayloads, ih]

theorem dmPayloads_mentionTrace (chat : Nat) (mentions : List Notification) :
    dmPayloads (mentions.map fun n => Act.deliverMention chat n) = [] := by
  induction mentions with
  | nil => simp [dmPayloads]
  | cons n rest ih => simp [dmPayloads, ih]

theorem groupPayloads_mentionTrace (chat : Nat) (mentions : List Notification) :
    groupPayloads (mentions.map fun n => Act.deliverMention chat n) = [] := by
  induction mentions with
  | nil => simp [groupPayloads]
  | cons n rest ih => simp [groupPayloads, ih]

theorem homePayloads_homeTrace (chat : Nat) (toots : List Toot) :
    homePayloads (toots.map (Act.deliverHome chat)) = toots := by
  induction toots with
  | nil => simp [homePayloads]
  | cons t rest ih => simp [homePayloads, ih]

theorem checkNotifications_trace_eq (addr : String) (nChat : Nat) (lastId : Option Nat)
    (muted : Bool) (t0 : Notification) (ts : List Notification)
    (store : List DmChatRec) (nid : Nat) :
    (checkNotifications addr nChat lastId muted (t0 :: ts) store nid).trace
      = Act.persistNotif addr t0.id
          :: ((handleDms addr (classifyNotifs muted (t0 :: ts)).1 store nid).2.2
            ++ ((groupBatches (groupNotifications (classifyNotifs muted (t0 :: ts)).2)).filterMap
                fun grp => (notif2reply grp).map fun text => Act.deliverGroup nChat grp text)
            ++ ((groupNotifications (classifyNotifs muted (t0 :: ts)).2).mentions.map
                fun n => Act.deliverMention nChat n)) := rfl

theorem dmPayloads_persist_cons (addr : String) (i : Nat) (tr : List Act) :
    dmPayloads (Act.persistNotif addr i :: tr) = dmPayloads tr := rfl

theorem mentionPayloads_persist_cons (addr : String) (i : Nat) (tr : List Act) :
    mentionPayloads (Act.persistNotif addr i :: tr) = mentionPayloads tr := rfl

theorem groupPayloads_persist_cons (addr : String) (i : Nat) (tr : List Act) :
    groupPayloads (Act.persistNotif addr i :: tr) = groupPayloads tr := rfl

theorem homePayloads_persist_cons (addr : String) (i : Nat) (tr : List Act) :
    homePayloads (Act.persistHome addr i :: tr) = homePayloads tr := rfl

theorem checkNotifications_dmPayloads (addr : String) (nChat : Nat) (lastId : Option Nat)
    (muted : Bool) (toots : List Notification) (store : List DmChatRec) (nid : Nat) :
    dmPayloads (checkNotifications addr nChat lastId muted toots store nid).trace
      = (classifyNotifs muted toots).1.reverse := by
  cases toots with
  | nil => simp [checkNotifications, classifyNotifs, dmPayloads]
  | cons t0 ts =>
    rw [checkNotifications_trace_eq, dmPayloads_persist_cons, dmPayloads_append,
      dmPayloads_append, dmPayloads_handleDms_trace, dmPayloads_groupTrace,
      dmPayloads_mentionTrace]
    simp

theorem checkNotifications_mentionPayloads (addr : String) (nChat : Nat)
    (lastId : Option Nat) (muted : Bool) (toots : List Notification)
    (store : List DmChatRec) (nid : Nat) :
    mentionPayloads (checkNotifications addr nChat lastId muted toots store nid).trace
      = (groupNotifications (classifyNotifs muted toots).2).mentions := by
  cases toots with
  | nil =>
    simp [checkNotifications, classifyNotifs, mentionPayloads, groupNotifications,
      groupGo]
  | cons t0 ts =>
    rw [checkNotifications_trace_eq, mentionPayloads_persist_cons, mentionPayloads_append,
      mentionPayloads_append, handleDms, mentionPayloads_handleDms,
      mentionPayloads_groupTrace, mentionPayloads_mentionTrace]
    simp

theorem checkNotifications_groupPayloads (addr : String) (nChat : Nat)
    (lastId : Option Nat) (muted : Bool) (toots : List Notification)
    (store : List DmChatRec) (nid : Nat) :
    groupPayloads (checkNotifications addr nChat lastId muted toots store nid).trace
      = (groupBatches (groupNotifications (classifyNotifs muted toots).2)).filter
          fun grp => (notif2reply grp).isSome := by
  cases toots with
  | nil =>
    simp [checkNotifications, classifyNotifs, groupPayloads, groupNotifications,
      groupGo, groupBatches]
  | cons t0 ts =>
    rw [checkNotifications_trace_eq, groupPayloads_persist_cons, groupPayloads_append,
      groupPayloads_append, handleDms, groupPayloads_handleDms, groupPayloads_groupTrace,
      groupPayloads_mentionTrace]
    simp

theorem checkHome_homePayloads (addr : String) (hChat : Nat) (lastId : Option Nat)
    (meId : Nat) (toots : List Toot) :
    homePayloads (checkHome addr hChat lastId meId toots).trace
      = (toots.filter fun t => !(t.mentions.any fun a => a.id == meId)).reverse := by
  cases toots with
  | nil => simp [checkHome, homePayloads]
  | cons t0 ts =>
    rw [show (checkHome addr hChat lastId meId (t0 :: ts)).trace
        = Act.persistHome addr t0.id
          :: (((t0 :: ts).filter fun t => !(t.mentions.any fun a => a.id == meId)).reverse.map
            (Act.deliverHome hChat)) from rfl]
    rw [homePayloads_persist_cons, homePayloads_homeTrace]

theorem pairwise_lt_reverse_of_desc {α : Type} (f : α → Nat) (l sub : List α)
    (hsub : sub.Sublist l) (h : List.Pairwise (· > ·) (l.map f)) :
    List.Pairwise (· < ·) ((sub.reverse).map f) := by
  have hp : List.Pairwise (· > ·) (sub.map f) := h.sublist (hsub.map f)
  rw [List.map_reverse, List.pairwise_reverse]
  exact hp

/-- Rank of a delivered notification group: reblog summaries come first,
then favourites, then the follow batch. -/
def batchRank (grp : List Notification) : Nat :=
  match grp.head? with
  | some t0 => if t0.kind == "reblog" then 0 else if t0.kind == "favourite" then 1 else 2
  | none => 2

theorem groupBatches_sorted (l : List Notification)
    (hl : List.Pairwise (· > ·) (l.map fun n => n.id)) :
    ∀ grp ∈ groupBatches (groupNotifications l),
      List.Pairwise (· < ·) (grp.map fun n => n.id) := by
  intro grp hgrp
  simp only [groupBatches, List.mem_append] at hgrp
  rcases hgrp with (h | h) | h
  · obtain ⟨p, hmem, heq⟩ := List.mem_map.mp h
    obtain ⟨k, grp2⟩ := p
    simp only at heq
    subst heq
    rw [groupNotifications_reblogs_eq l k grp2 hmem]
    have hrev : List.Pairwise (· < ·) ((l.reverse).map fun n => n.id) :=
      pairwise_lt_reverse_of_desc _ l l (List.Sublist.refl l) hl
    exact hrev.sublist ((List.filter_sublist _).map _)
  · obtain ⟨p, hmem, heq⟩ := List.mem_map.mp h
    obtain ⟨k, grp2⟩ := p
    simp only at heq
    subst heq
    rw [groupNotifications_favs_eq l k grp2 hmem]
    have hrev : List.Pairwise (· < ·) ((l.reverse).map fun n => n.id) :=
      pairwise_lt_reverse_of_desc _ l l (List.Sublist.refl l) hl
    exact hrev.sublist ((List.filter_sublist _).map _)
  · have hgrp2 : grp = (groupNotifications l).follows := by
      by_cases hf : (groupNotifications l).follows.isEmpty
      · simp [hf] at h
      · simpa [hf] using h
    subst hgrp2
    rw [groupNotifications_follows]
    have hrev : List.Pairwise (· < ·) ((l.reverse).map fun n => n.id) :=
      pairwise_lt_reverse_of_desc _ l l (List.Sublist.refl l) hl
    exact hrev.sublist ((List.filter_sublist _).map _)

theorem groupBatches_rank_sorted (l : List Notification) :
    List.Pairwise (fun g1 g2 => batchRank g1 ≤ batchRank g2)
      (groupBatches (groupNotifications l)) := by
  have hrb : ∀ grp ∈ (groupNotifications l).reblogs.map Prod.snd, batchRank grp = 0 := by
    intro grp hgrp
    obtain ⟨⟨k, grp2⟩, hmem, heq⟩ := List.mem_map.mp hgrp
    simp only at heq
    subst heq
    obtain ⟨hne, hall⟩ := reblog_pair_shape l k grp2 hmem
    cases hg : grp2 with
    | nil => exact absurd hg hne
    | cons t0 rest =>
      have := (hall t0 (hg ▸ List.mem_cons_self _ _)).1
      simp [batchRank, hg, this]
  have hfv : ∀ grp ∈ (groupNotifications l).favs.map Prod.snd, batchRank grp = 1 := by
    intro grp hgrp
    obtain ⟨⟨k, grp2⟩, hmem, heq⟩ := List.mem_map.mp hgrp
    simp only at heq
    subst heq
    obtain ⟨hne, hall⟩ := fav_pair_shape l k grp2 hmem
    cases hg : grp2 with
    | nil => exact absurd hg hne
    | cons t0 rest =>
      have := (hall t0 (hg ▸ List.mem_cons_self _ _)).1
      simp [batchRank, hg, this]
  have hfo : ∀ grp ∈ (if (groupNotifications l).follows.isEmpty then []
      else [(groupNotifications l).follows]), batchRank grp = 2 := by
    intro grp hgrp
    by_cases hf : (groupNotifications l).follows.isEmpty
    · simp [hf] at hgrp
    · have hgrp2 : grp = (groupNotifications l).follows := by simpa [hf] using hgrp
      rw [hgrp2]
      cases hg : (groupNotifications l).follows with
      | nil => simp [hg] at hf
      | cons t0 rest =>
        have ht0 : t0 ∈ (groupNotifications l).follows := hg ▸ List.mem_cons_self _ _
        rw [groupNotifications_follows] at ht0
        have hk : t0.kind = "follow" := by simpa using (List.mem_filter.mp ht0).2
        simp [batchRank, hg, hk]
  simp only [groupBatches]
  rw [List.pairwise_append]
  refine ⟨?_, ?_, ?_⟩
  · rw [List.pairwise_append]
    refine ⟨?_, ?_, ?_⟩
    · refine List.pairwise_of_forall_mem_list fun g1 h1 g2 h2 => ?_
      simp [hrb g1 h1, hrb g2 h2]
    · refine List.pairwise_of_forall_mem_list fun g1 h1 g2 h2 => ?_
      simp [hfv g1 h1, hfv g2 h2]
    · intro g1 h1 g2 h2
      simp [hrb g1 h1, hfv g2 h2]
  · refine List.pairwise_of_forall_mem_list fun g1 h1 g2 h2 => ?_
    simp [hfo g1 h1, hfo g2 h2]
  · intro g1 h1 g2 h2
    rcases List.mem_append.mp h1 with h | h
    · simp [hrb g1 h, hfo g2 h2]
    · simp [hfv g1 h, hfo g2 h2]

/-- A reblog event (id 2, newer) on one post. -/
def cexReblog : Notification := ⟨2, "reblog", accB, demoToot 20⟩

/-- A favourite event (id 1, older) on another post. -/
def cexFav : Notification := ⟨1, "favourite", accC, demoToot 10⟩

/-- C6 counterexample: a batch holding a favourite (event id 1, older) and
a reblog (event id 2, newer) is delivered as two grouped-notification
items with the reblog summary *first*: within the grouped-notifications
category items are emitted kind-major (reblogs before favourites), not
oldest-to-newest. -/
theorem C6_ordering_counterexample :
    groupPayloads
        (checkNotifications "a@x" 7 (some 0) false [cexReblog, cexFav] [] 1).trace
      = [[cexReblog], [cexFav]]
    ∧ ¬ List.Pairwise (· ≤ ·)
        ((groupPayloads
            (checkNotifications "a@x" 7 (some 0) false [cexReblog, cexFav] [] 1).trace).map
          fun g => ((g.head?.map fun n => n.id).getD 0)) := by
  decide

/-- C6 amended: direct messages, mentions and home posts are each
delivered oldest-to-newest (strictly ascending event ids); grouped
notifications list each group's actors oldest-to-newest but the group
summaries themselves are emitted kind-major (all reblog groups, then all
favourite groups, then the follow batch); the concrete home scenario holds:
cursor "100", fetch returns 105, 103, 101 → delivered in order 101, 103,
105 with new cursor 105. -/
theorem C6_delivery_order_amended
    (ns : List Notification) (hs : List Toot) (addr : String) (nChat hChat : Nat)
    (cN cH : Option Nat) (muted : Bool) (store : List DmChatRec) (nid meId : Nat)
    (hns : List.Pairwise (· > ·) (ns.map fun n => n.id))
    (hhs : List.Pairwise (· > ·) (hs.map fun t => t.id)) :
    List.Pairwise (· < ·)
        ((dmPayloads (notifPass ns addr nChat cN muted store nid).trace).map fun n => n.id)
    ∧ List.Pairwise (· < ·)
        ((mentionPayloads (notifPass ns addr nChat cN muted store nid).trace).map
          fun n => n.id)
    ∧ (∀ grp ∈ groupPayloads (notifPass ns addr nChat cN muted store nid).trace,
        List.Pairwise (· < ·) (grp.map fun n => n.id))
    ∧ List.Pairwise (fun g1 g2 => batchRank g1 ≤ batchRank g2)
        (groupPayloads (notifPass ns addr nChat cN muted store nid).trace)
    ∧ List.Pairwise (· < ·)
        ((homePayloads (homePass hs addr hChat cH meId).trace).map fun t => t.id)
    ∧ (homePass [demoToot 105, demoToot 103, demoToot 101] "a@x" 8 (some 100) 555).trace
        = [Act.persistHome "a@x" 105, Act.deliverHome 8 (demoToot 101),
           Act.deliverHome 8 (demoToot 103), Act.deliverHome 8 (demoToot 105)]
    ∧ (homePass [demoToot 105, demoToot 103, demoToot 101] "a@x" 8 (some 100) 555).cursor
        = some 105 := by
  have hfet := fetchPage_pairwise (fun n => n.id) ns cN 100 hns
  have hfeth := fetchPage_pairwise (fun t => t.id) hs cH 100 hhs
  have hdms : ((classifyNotifs muted (fetchPage (fun n => n.id) ns cN 100)).1).Sublist
      (fetchPage (fun n => n.id) ns cN 100) := by
    rw [classifyNotifs_fst]
    exact List.filter_sublist _
  have hnotifs : ((classifyNotifs muted (fetchPage (fun n => n.id) ns cN 100)).2).Sublist
      (fetchPage (fun n => n.id) ns cN 100) := by
    rw [classifyNotifs_snd]
    exact List.filter_sublist _
  have hnsorted : List.Pairwise (· > ·)
      (((classifyNotifs muted (fetchPage (fun n => n.id) ns cN 100)).2).map
        fun n => n.id) :=
    hfet.sublist (hnotifs.map _)
  refine ⟨?_, ?_, ?_, ?_, ?_, by decide, by decide⟩
  · simp only [notifPass]
    rw [checkNotifications_dmPayloads]
    exact pairwise_lt_reverse_of_desc _ _ _ hdms hfet
  · simp only [notifPass]
    rw [checkNotifications_mentionPayloads]
    have hm := groupGo_mentions ⟨[], [], [], []⟩
      ((classifyNotifs muted (fetchPage (fun n => n.id) ns cN 100)).2).reverse
    rw [show groupNotifications (classifyNotifs muted
        (fetchPage (fun n => n.id) ns cN 100)).2
      = groupGo ⟨[], [], [], []⟩ ((classifyNotifs muted
          (fetchPage (fun n => n.id) ns cN 100)).2).reverse from rfl]
    rw [hm]
    simp only [List.nil_append]
    have hrev : List.Pairwise (· < ·)
        ((((classifyNotifs muted (fetchPage (fun n => n.id) ns cN 100)).2).reverse).map
          fun n => n.id) :=
      pairwise_lt_reverse_of_desc _ _ _ hnotifs hfet
    exact hrev.sublist ((List.filter_sublist _).map _)
  · simp only [notifPass]
    rw [checkNotifications_groupPayloads]
    intro grp hgrp
    exact groupBatches_sorted _ hnsorted grp ((List.filter_sublist _).mem hgrp)
  · simp only [notifPass]
    rw [checkNotifications_groupPayloads]
    exact (groupBatches_rank_sorted _).sublist (List.filter_sublist _)
  · simp only [homePass]
    rw [checkHome_homePayloads]
    exact pairwise_lt_reverse_of_desc _ _ _ (List.filter_sublist _) hfeth

/-- Witness for the amended C6 at a concrete input. -/
theorem C6_delivery_order_amended_witness :
    (List.Pairwise (· > ·) (demoFavBatch.map fun n => n.id)
      ∧ List.Pairwise (· > ·) ([demoToot 9].map fun t => t.id))
    ∧ (List.Pairwise (· < ·)
          ((dmPayloads (notifPass demoFavBatch "a@x" 7 (some 0) false [] 1).trace).map
            fun n => n.id)
      ∧ List.Pairwise (· < ·)
          ((mentionPayloads (notifPass demoFavBatch "a@x" 7 (some 0) false [] 1).trace).map
            fun n => n.id)
      ∧ (∀ grp ∈ groupPayloads (notifPass demoFavBatch "a@x" 7 (some 0) false [] 1).trace,
          List.Pairwise (· < ·) (grp.map fun n => n.id))
      ∧ List.Pairwise (fun g1 g2 => batchRank g1 ≤ batchRank g2)
          (groupPayloads (notifPass demoFavBatch "a@x" 7 (some 0) false [] 1).trace)
      ∧ List.Pairwise (· < ·)
          ((homePayloads (homePass [demoToot 9] "a@x" 8 (some 0) 555).trace).map
            fun t => t.id)
      ∧ (homePass [demoToot 105, demoToot 103, demoToot 101] "a@x" 8 (some 100) 555).trace
          = [Act.persistHome "a@x" 105, Act.deliverHome 8 (demoToot 101),
             Act.deliverHome 8 (demoToot 103), Act.deliverHome 8 (demoToot 105)]
      ∧ (homePass [demoToot 105, demoToot 103, demoToot 101] "a@x" 8 (some 100) 555).cursor
          = some 105) :=
  ⟨⟨by decide, by decide⟩,
    C6_delivery_order_amended demoFavBatch [demoToot 9] "a@x" 7 8 (some 0) (some 0) false
      [] 1 555 (by decide) (by decide)⟩

/-- An `Account` row of orm.py: local address (primary key), remote user
name, instance url, access token, the two bound chats, the two cursors and
the two mute flags (the latter added by the migrations). -/
structure OrmAccount where
  addr : String
  user : String
  url : String
  token : String
  home : Nat
  notifications : Nat
  last_home : Option Nat
  last_notif : Option Nat
  muted_home : Bool
  muted_notif : Bool
deriving DecidableEq, Repr

/-- The ORM store: account rows and DmChat rows. -/
structure Store where
  accounts : List OrmAccount
  dmChats : List DmChatRec
deriving DecidableEq, Repr

/-- Outcome of `get_mastodon` + the per-account checks for one account in
one cycle: either the remote servers answer (`ok`), or the session raises
`MastodonUnauthorizedError` (`unauthorized`), a network/server error
(`networkError`), or any other exception (`otherError`). -/
inductive CheckOutcome where
  | ok (notifServer : List Notification) (homeServer : List Toot) (meId : Nat)
  | unauthorized
  | networkError
  | otherError
deriving DecidableEq, Repr

/-- util.py `_check_mastodon` lines 276-288: the per-cycle snapshot is
grouped by instance url with `instances.setdefault(acc.url, []).append(...)`. -/
def groupByUrl (accs : List OrmAccount) : List (String × List OrmAccount) :=
  accs.foldl (fun gs a => addToGroup gs a.url a) []

/-- `l.pop()`: the last element and the remaining front, `none` on `[]`. -/
def popLast? {α : Type} : List α → Option (α × List α)
  | [] => none
  | [a] => some (a, [])
  | a :: b :: rest =>
    match popLast? (b :: rest) with
    | some (x, front) => some (x, a :: front)
    | none => none

/-- One round of util.py lines 297-311: `for key in list(instances.keys())`
pops one account from each group (`instances[key].pop()`) and drops groups
that become empty. -/
def popRound (gs : List (String × List OrmAccount)) :
    List OrmAccount × List (String × List OrmAccount) :=
  gs.foldr
    (fun p acc =>
      match popLast? p.2 with
      | none => acc
      | some (x, front) =>
        (x :: acc.1, if front.isEmpty then acc.2 else (p.1, front) :: acc.2))
    ([], [])

/-- All accounts held in a url-grouped work map. -/
def gflat (gs : List (String × List OrmAccount)) : List OrmAccount :=
  gs.flatMap Prod.snd

/-- The `while instances:` loop of `_check_mastodon`, fuelled by the total
account count: repeat `popRound` until every group is drained, visiting
each account exactly once. -/
def roundRobinF : Nat → List (String × List OrmAccount) → List OrmAccount
  | 0, _ => []
  | fuel + 1, gs =>
    match popRound gs with
    | ([], _) => []
    | (x :: picks, gs2) => (x :: picks) ++ roundRobinF fuel gs2

/-- The order in which one cycle of `_check_mastodon` visits the accounts:
round-robin across instance groups, last-in first within a group. -/
def roundRobin (gs : List (String × List OrmAccount)) : List OrmAccount :=
  roundRobinF (gflat gs).length gs

theorem popLast?_spec {α : Type} (l : List α) :
    (l = [] ∧ popLast? l = none)
    ∨ ∃ x front, popLast? l = some (x, front) ∧ l = front ++ [x] := by
  induction l with
  | nil => exact Or.inl ⟨rfl, rfl⟩
  | cons a rest ih =>
    cases rest with
    | nil => exact Or.inr ⟨a, [], rfl, rfl⟩
    | cons b rest2 =>
      rcases ih with ⟨h, _⟩ | ⟨x, front, hpop, heq⟩
      · simp at h
      · refine Or.inr ⟨x, a :: front, ?_, ?_⟩
        · simp [popLast?, hpop]
        · simp [heq]

theorem popRound_cons (k : String) (l : List OrmAccount)
    (rest : List (String × List OrmAccount)) :
    popRound ((k, l) :: rest)
      = match popLast? l with
        | none => popRound rest
        | some (x, front) =>
          (x :: (popRound rest).1,
            if front.isEmpty then (popRound rest).2 else (k, front) :: (popRound rest).2) :=
  rfl

theorem gflat_cons (k : String) (l : List OrmAccount)
    (rest : List (String × List OrmAccount)) :
    gflat ((k, l) :: rest) = l ++ gflat rest := by
  simp [gflat]

theorem popRound_perm (gs : List (String × List OrmAccount)) :
    ((popRound gs).1 ++ gflat (popRound gs).2).Perm (gflat gs) := by
  induction gs with
  | nil => simp [popRound, gflat]
  | cons p rest ih =>
    obtain ⟨k, l⟩ := p
    rcases popLast?_spec l with ⟨hnil, hpop⟩ | ⟨x, front, hpop, heq⟩
    · subst hnil
      rw [popRound_cons, hpop, gflat_cons]
      simpa using ih
    · subst heq
      rw [popRound_cons, hpop, gflat_cons]
      by_cases hf : front.isEmpty
      · have hfe : front = [] := by simpa using hf
        subst hfe
        simp only [List.isEmpty_nil, if_true]
        have : ((x :: (popRound rest).1) ++ gflat (popRound rest).2)
            = x :: ((popRound rest).1 ++ gflat (popRound rest).2) := by simp
        rw [this]
        simpa using ih.cons x
      · simp only [hf, if_false, Bool.false_eq_true]
        rw [gflat_cons]
        have step1 : ((popRound rest).1 ++ (front ++ gflat (popRound rest).2)).Perm
            (front ++ ((popRound rest).1 ++ gflat (popRound rest).2)) := by
          rw [← List.append_assoc, ← List.append_assoc]
          exact List.perm_append_comm.append_right _
        have step2 : (front ++ ((popRound rest).1 ++ gflat (popRound rest).2)).Perm
            (front ++ gflat rest) := List.Perm.append_left front ih
        have step3 : (x :: (front ++ gflat rest)).Perm ((front ++ [x]) ++ gflat rest) := by
          rw [List.append_assoc]
          exact List.perm_middle.symm
        have hcons : ((x :: (popRound rest).1) ++ (front ++ gflat (popRound rest).2))
            = x :: ((popRound rest).1 ++ (front ++ gflat (popRound rest).2)) := by simp
        rw [hcons]
        exact (((step1.trans step2).cons x).trans step3)

theorem popRound_nil (gs : List (String × List OrmAccount))
    (h : (popRound gs).1 = []) : gflat gs = [] := by
  induction gs with
  | nil => simp [gflat]
  | cons p rest ih =>
    obtain ⟨k, l⟩ := p
    rcases popLast?_spec l with ⟨hnil, hpop⟩ | ⟨x, front, hpop, heq⟩
    · subst hnil
      rw [popRound_cons, hpop] at h
      rw [gflat_cons, ih h]
      rfl
    · rw [popRound_cons, hpop] at h
      simp at h

theorem roundRobinF_perm :
    ∀ (fuel : Nat) (gs : List (String × List OrmAccount)),
      (gflat gs).length ≤ fuel → (roundRobinF fuel gs).Perm (gflat gs) := by
  intro fuel
  induction fuel with
  | zero =>
    intro gs h
    have : gflat gs = [] := List.length_eq_zero.mp (Nat.le_zero.mp h)
    rw [this]
    rfl
  | succ fuel ih =>
    intro gs h
    rcases hpr : popRound gs with ⟨picks, gs2⟩
    cases picks with
    | nil =>
      have hflat : gflat gs = [] := popRound_nil gs (by rw [hpr])
      rw [roundRobinF, hpr, hflat]
    | cons x pr =>
      have hperm : ((x :: pr) ++ gflat gs2).Perm (gflat gs) := by
        have := popRound_perm gs
        rwa [hpr] at this
      have hlen : (gflat gs2).length ≤ fuel := by
        have hl := hperm.length_eq
        simp only [List.length_append, List.length_cons] at hl
        omega
      rw [roundRobinF, hpr]
      exact (List.Perm.append_left (x :: pr) (ih gs2 hlen)).trans hperm

theorem gflat_addToGroup (gs : List (String × List OrmAccount)) (k : String)
    (x : OrmAccount) : (gflat (addToGroup gs k x)).Perm (gflat gs ++ [x]) := by
  induction gs with
  | nil => simp [addToGroup, gflat]
  | cons p rest ih =>
    obtain ⟨k0, l⟩ := p
    by_cases h : k0 = k
    · subst h
      rw [show addToGroup ((k0, l) :: rest) k0 x = (k0, l ++ [x]) :: rest by
        simp [addToGroup]]
      rw [gflat_cons, gflat_cons]
      have h2 : ((l ++ [x]) ++ gflat rest) = l ++ ([x] ++ gflat rest) := by
        rw [List.append_assoc]
      have h3 : ((l ++ gflat rest) ++ [x]) = l ++ (gflat rest ++ [x]) := by
        rw [List.append_assoc]
      rw [h2, h3]
      exact List.Perm.append_left l List.perm_append_comm
    · rw [show addToGroup ((k0, l) :: rest) k x = (k0, l) :: addToGroup rest k x by
        simp [addToGroup, h]]
      rw [gflat_cons, gflat_cons, List.append_assoc]
      exact List.Perm.append_left l ih

theorem groupByUrl_foldl_perm (accs : List OrmAccount)
    (g0 : List (String × List OrmAccount)) :
    (gflat (accs.foldl (fun gs a => addToGroup gs a.url a) g0)).Perm
      (gflat g0 ++ accs) := by
  induction accs generalizing g0 with
  | nil => simp
  | cons a rest ih =>
    rw [List.foldl_cons]
    refine (ih (addToGroup g0 a.url a)).trans ?_
    have h1 : (gflat (addToGroup g0 a.url a) ++ rest).Perm ((gflat g0 ++ [a]) ++ rest) :=
      (gflat_addToGroup g0 a.url a).append_right rest
    refine h1.trans ?_
    rw [List.append_assoc]
    simp

theorem roundRobin_perm (accs : List OrmAccount) :
    (roundRobin (groupByUrl accs)).Perm accs := by
  have h1 : (gflat (groupByUrl accs)).Perm accs := by
    simpa [gflat] using groupByUrl_foldl_perm accs []
  exact (roundRobinF_perm _ _ (le_refl _)).trans h1

/-- Mutable bot state threaded through one cycle: the ORM store and the
chat-id allocator for `bot.create_group`. -/
structure CycleState where
  store : Store
  nextChatId : Nat
deriving DecidableEq, Repr

/-- util.py `_check_mastodon` lines 312-348: one account's check inside the
cycle.  The debug log line opens the trace; on success the notifications
pass runs first, then (unless `muted_home`) the home pass, with cursor
writes applied to the account row; on `MastodonUnauthorizedError` the
account row is re-queried by address, its chats are collected, the row is
deleted (the ORM relationship cascades to its DmChat rows), the bot leaves
every collected chat and a logout text is sent to the user's private chat
(sent even if the row had vanished); network/server errors are only
logged; any other exception sends an error text to the user.  The
`outcome` oracle stands for the remote session keyed by account address. -/
def checkAccountStep (outcome : String → CheckOutcome) (st : CycleState)
    (acc : OrmAccount) : CycleState × List Act :=
  match outcome acc.addr with
  | .ok ns hs me =>
    let nr := notifPass ns acc.addr acc.notifications acc.last_notif acc.muted_notif
        st.store.dmChats st.nextChatId
    let accounts1 := st.store.accounts.map fun a =>
      if a.addr = acc.addr then { a with last_notif := nr.cursor } else a
    if acc.muted_home then
      (⟨⟨accounts1, nr.store⟩, nr.nextId⟩, Act.logChecking acc.addr :: nr.trace)
    else
      let hr := homePass hs acc.addr acc.home acc.last_home me
      let accounts2 := accounts1.map fun a =>
        if a.addr = acc.addr then { a with last_home := hr.cursor } else a
      (⟨⟨accounts2, nr.store⟩, nr.nextId⟩,
        Act.logChecking acc.addr :: nr.trace ++ hr.trace)
  | .unauthorized =>
    match st.store.accounts.find? (fun a => a.addr == acc.addr) with
    | some found =>
      let chats := ((st.store.dmChats.filter fun d => d.acc_addr == acc.addr).map
          fun d => d.chat_id) ++ [found.home, found.notifications]
      (⟨⟨st.store.accounts.filter fun a => !(a.addr == acc.addr),
          st.store.dmChats.filter fun d => !(d.acc_addr == acc.addr)⟩, st.nextChatId⟩,
        Act.logChecking acc.addr :: chats.map Act.leaveChat ++ [Act.sendLogout acc.addr])
    | none =>
      (st, [Act.logChecking acc.addr, Act.sendLogout acc.addr])
  | .networkError => (st, [Act.logChecking acc.addr])
  | .otherError => (st, [Act.logChecking acc.addr, Act.sendAccountError acc.addr])

/-- Folds `checkAccountStep` over a visit list, threading the state and
concatenating the traces. -/
def runCycleGo (outcome : String → CheckOutcome) (st : CycleState) :
    List OrmAccount → CycleState × List Act
  | [] => (st, [])
  | a :: rest =>
    let (st1, tr) := checkAccountStep outcome st a
    let (st2, tr2) := runCycleGo outcome st1 rest
    (st2, tr ++ tr2)

/-- One full cycle of `_check_mastodon`: snapshot the accounts grouped by
instance, then visit them round-robin. -/
def runCycle (outcome : String → CheckOutcome) (store : Store) (nextChatId : Nat) :
    CycleState × List Act :=
  runCycleGo outcome ⟨store, nextChatId⟩ (roundRobin (groupByUrl store.accounts))

theorem runCycleGo_append (outcome : String → CheckOutcome) (l1 l2 : List OrmAccount) :
    ∀ st, runCycleGo outcome st (l1 ++ l2)
      = ((runCycleGo outcome (runCycleGo outcome st l1).1 l2).1,
          (runCycleGo outcome st l1).2 ++ (runCycleGo outcome (runCycleGo outcome st l1).1 l2).2) := by
  induction l1 with
  | nil => intro st; simp [runCycleGo]
  | cons a rest ih =>
    intro st
    simp only [List.cons_append, runCycleGo]
    rw [show rest.append l2 = rest ++ l2 from rfl, ih]
    simp [List.append_assoc]

theorem checkNotifications_store_mono (addr : String) (nChat : Nat) (lastId : Option Nat)
    (muted : Bool) (toots : List Notification) (store : List DmChatRec) (nid : Nat) :
    ∀ r ∈ (checkNotifications addr nChat lastId muted toots store nid).store,
      r ∈ store ∨ r.acc_addr = addr := by
  cases toots with
  | nil =>
    intro r hr
    exact Or.inl (by simpa [checkNotifications] using hr)
  | cons t0 ts =>
    intro r hr
    have : r ∈ (handleDms addr (classifyNotifs muted (t0 :: ts)).1 store nid).1 := hr
    exact handleDmsGo_store_mono _ _ _ _ _ r this

theorem sendLogout_not_mem_checkNotifications (x addr : String) (nChat : Nat)
    (lastId : Option Nat) (muted : Bool) (toots : List Notification)
    (store : List DmChatRec) (nid : Nat) :
    Act.sendLogout x ∉ (checkNotifications addr nChat lastId muted toots store nid).trace := by
  cases toots with
  | nil => simp [checkNotifications]
  | cons t0 ts =>
    intro h
    rw [checkNotifications_trace_eq] at h
    rcases List.mem_cons.mp h with h | h
    · simp at h
    · rcases List.mem_append.mp h with h | h
      · rcases List.mem_append.mp h with h | h
        · rcases handleDmsGo_trace_shape _ _ _ _ _ _ h with ⟨c, n, he, _⟩ | ⟨c, s, he⟩ <;>
            simp at he
        · obtain ⟨grp, _, ha2⟩ := List.mem_filterMap.mp h
          obtain ⟨text, _, heq⟩ := Option.map_eq_some'.mp ha2
          simp at heq
      · obtain ⟨n, _, ha2⟩ := List.mem_map.mp h
        simp at ha2

theorem sendLogout_not_mem_checkHome (x addr : String) (hChat : Nat)
    (lastId : Option Nat) (meId : Nat) (toots : List Toot) :
    Act.sendLogout x ∉ (checkHome addr hChat lastId meId toots).trace := by
  cases toots with
  | nil => simp [checkHome]
  | cons t0 ts =>
    intro h
    simp only [checkHome] at h
    rcases List.mem_cons.mp h with h | h
    · simp at h
    · obtain ⟨t, _, ha2⟩ := List.mem_map.mp h
      simp at ha2

theorem step_logout_count (outcome : String → CheckOutcome) (x : String)
    (hx : outcome x = .unauthorized) (st : CycleState) (a : OrmAccount) :
    ((checkAccountStep outcome st a).2.count (Act.sendLogout x))
      = if a.addr = x then 1 else 0 := by
  by_cases hax : a.addr = x
  · rw [hax]
    simp only [checkAccountStep, hax, hx, if_pos]
    cases hfind : st.store.accounts.find? (fun a => a.addr == x) with
    | some found =>
      simp [List.count_cons, List.count_append, List.count_eq_zero]
    | none => simp [List.count_cons]
  · simp only [if_neg hax]
    cases houtcome : outcome a.addr with
    | ok ns hs me =>
      simp only [checkAccountStep, houtcome]
      by_cases hmh : a.muted_home
      · simp only [hmh, if_pos, notifPass]
        rw [List.count_cons]
        rw [List.count_eq_zero.mpr
          (sendLogout_not_mem_checkNotifications x a.addr a.notifications a.last_notif
            a.muted_notif _ st.store.dmChats st.nextChatId)]
        simp
      · simp only [hmh, Bool.false_eq_true, if_false, notifPass, homePass]
        rw [List.count_append, List.count_cons]
        rw [List.count_eq_zero.mpr
          (sendLogout_not_mem_checkNotifications x a.addr a.notifications a.last_notif
            a.muted_notif _ st.store.dmChats st.nextChatId)]
        rw [List.count_eq_zero.mpr
          (sendLogout_not_mem_checkHome x a.addr a.home a.last_home me _)]
        simp
    | unauthorized =>
      simp only [checkAccountStep, houtcome]
      cases hfind : st.store.accounts.find? (fun b => b.addr == a.addr) with
      | some found =>
        simp [List.count_cons, List.count_append, List.count_eq_zero, hax]
      | none => simp [List.count_cons, hax]
    | networkError => simp [checkAccountStep, houtcome, List.count_cons]
    | otherError => simp [checkAccountStep, houtcome, List.count_cons]

theorem runCycleGo_logout_count (outcome : String → CheckOutcome) (x : String)
    (hx : outcome x = .unauthorized) :
    ∀ (l : List OrmAccount) (st : CycleState),
      ((runCycleGo outcome st l).2.count (Act.sendLogout x))
        = (l.filter fun a => a.addr == x).length := by
  intro l
  induction l with
  | nil => intro st; simp [runCycleGo]
  | cons a rest ih =>
    intro st
    simp only [runCycleGo, List.count_append]
    rw [step_logout_count outcome x hx st a, ih]
    by_cases hax : a.addr = x
    · simp only [List.filter_cons, hax, beq_self_eq_true, if_pos, List.length_cons]
      omega
    · simp [List.filter_cons, hax]

theorem step_logChecking (outcome : String → CheckOutcome) (st : CycleState)
    (a : OrmAccount) : Act.logChecking a.addr ∈ (checkAccountStep outcome st a).2 := by
  cases houtcome : outcome a.addr with
  | ok ns hs me =>
    simp only [checkAccountStep, houtcome]
    by_cases hmh : a.muted_home
    · simp [hmh]
    · simp [hmh]
  | unauthorized =>
    simp only [checkAccountStep, houtcome]
    cases hfind : st.store.accounts.find? (fun b => b.addr == a.addr) with
    | some found => simp
    | none => simp
  | networkError => simp [checkAccountStep, houtcome]
  | otherError => simp [checkAccountStep, houtcome]

theorem runCycleGo_logChecking (outcome : String → CheckOutcome) :
    ∀ (l : List OrmAccount) (st : CycleState) (a : OrmAccount), a ∈ l →
      Act.logChecking a.addr ∈ (runCycleGo outcome st l).2 := by
  intro l
  induction l with
  | nil => intro st a ha; simp at ha
  | cons b rest ih =>
    intro st a ha
    simp only [runCycleGo, List.mem_append]
    rcases List.mem_cons.mp ha with h | h
    · subst h
      exact Or.inl (step_logChecking outcome st a)
    · exact Or.inr (ih _ a h)

theorem step_preserves_clean (outcome : String → CheckOutcome) (st : CycleState)
    (a : OrmAccount) (x : String) (hax : a.addr ≠ x)
    (hP1 : ∀ r ∈ st.store.accounts, r.addr ≠ x)
    (hP2 : ∀ d ∈ st.store.dmChats, d.acc_addr ≠ x) :
    (∀ r ∈ (checkAccountStep outcome st a).1.store.accounts, r.addr ≠ x)
    ∧ (∀ d ∈ (checkAccountStep outcome st a).1.store.dmChats, d.acc_addr ≠ x) := by
  cases houtcome : outcome a.addr with
  | ok ns hs me =>
    have hdm : ∀ d ∈ (notifPass ns a.addr a.notifications a.last_notif a.muted_notif
        st.store.dmChats st.nextChatId).store, d.acc_addr ≠ x := by
      intro d hd
      rcases checkNotifications_store_mono a.addr a.notifications a.last_notif
          a.muted_notif _ st.store.dmChats st.nextChatId d hd with h | h
      · exact hP2 d h
      · rw [h]
        exact hax
    have hacc1 : ∀ r ∈ (st.store.accounts.map fun b =>
        if b.addr = a.addr then { b with last_notif := (notifPass ns a.addr
          a.notifications a.last_notif a.muted_notif st.store.dmChats
          st.nextChatId).cursor } else b), r.addr ≠ x := by
      intro r hr
      obtain ⟨b, hb, hbeq⟩ := List.mem_map.mp hr
      subst hbeq
      by_cases hb2 : b.addr = a.addr
      · simpa [hb2] using hP1 b hb
      · simpa [hb2] using hP1 b hb
    simp only [checkAccountStep, houtcome]
    by_cases hmh : a.muted_home
    · simp only [hmh, if_pos]
      exact ⟨hacc1, hdm⟩
    · simp only [hmh, Bool.false_eq_true, if_false]
      refine ⟨?_, hdm⟩
      intro r hr
      obtain ⟨b, hb, hbeq⟩ := List.mem_map.mp hr
      subst hbeq
      by_cases hb2 : b.addr = a.addr
      · simpa [hb2] using hacc1 b hb
      · simpa [hb2] using hacc1 b hb
  | unauthorized =>
    simp only [checkAccountStep, houtcome]
    cases hfind : st.store.accounts.find? (fun b => b.addr == a.addr) with
    | some found =>
      refine ⟨?_, ?_⟩
      · intro r hr
        exact hP1 r ((List.filter_sublist _).mem hr)
      · intro d hd
        exact hP2 d ((List.filter_sublist _).mem hd)
    | none => exact ⟨hP1, hP2⟩
  | networkError =>
    simp only [checkAccountStep, houtcome]
    exact ⟨hP1, hP2⟩
  | otherError =>
    simp only [checkAccountStep, houtcome]
    exact ⟨hP1, hP2⟩

theorem runCycleGo_preserves_clean (outcome : String → CheckOutcome) (x : String) :
    ∀ (l : List OrmAccount) (st : CycleState), (∀ a ∈ l, a.addr ≠ x) →
      (∀ r ∈ st.store.accounts, r.addr ≠ x) →
      (∀ d ∈ st.store.dmChats, d.acc_addr ≠ x) →
      (∀ r ∈ (runCycleGo outcome st l).1.store.accounts, r.addr ≠ x)
      ∧ (∀ d ∈ (runCycleGo outcome st l).1.store.dmChats, d.acc_addr ≠ x) := by
  intro l
  induction l with
  | nil => intro st _ hP1 hP2; exact ⟨hP1, hP2⟩
  | cons a rest ih =>
    intro st hl hP1 hP2
    have hstep := step_preserves_clean outcome st a x
      (hl a (List.mem_cons_self _ _)) hP1 hP2
    exact ih _ (fun b hb => hl b (List.mem_cons_of_mem _ hb)) hstep.1 hstep.2

theorem step_presence (outcome : String → CheckOutcome) (st : CycleState)
    (a : OrmAccount) (x : String) (hax : a.addr ≠ x)
    (h : ∃ r ∈ st.store.accounts, r.addr = x) :
    ∃ r ∈ (checkAccountStep outcome st a).1.store.accounts, r.addr = x := by
  obtain ⟨r, hr, hrx⟩ := h
  have hra : ¬ r.addr = a.addr := fun hh => hax (hh.symm.trans hrx)
  have hxa : ¬ x = a.addr := fun hh => hax hh.symm
  cases houtcome : outcome a.addr with
  | ok ns hs me =>
    simp only [checkAccountStep, houtcome]
    by_cases hmh : a.muted_home
    · simp only [hmh, if_pos]
      refine ⟨_, List.mem_map_of_mem _ hr, ?_⟩
      simp [hra, hrx, hxa]
    · simp only [hmh, Bool.false_eq_true, if_false]
      refine ⟨_, List.mem_map_of_mem _ (List.mem_map_of_mem _ hr), ?_⟩
      simp [hra, hrx, hxa]
  | unauthorized =>
    simp only [checkAccountStep, houtcome]
    cases hfind : st.store.accounts.find? (fun b => b.addr == a.addr) with
    | some found =>
      refine ⟨r, List.mem_filter.mpr ⟨hr, ?_⟩, hrx⟩
      simp [hrx, hxa]
    | none => exact ⟨r, hr, hrx⟩
  | networkError => exact ⟨r, by simpa [checkAccountStep, houtcome] using hr, hrx⟩
  | otherError => exact ⟨r, by simpa [checkAccountStep, houtcome] using hr, hrx⟩

theorem runCycleGo_presence (outcome : String → CheckOutcome) (x : String) :
    ∀ (l : List OrmAccount) (st : CycleState), (∀ a ∈ l, a.addr ≠ x) →
      (∃ r ∈ st.store.accounts, r.addr = x) →
      ∃ r ∈ (runCycleGo outcome st l).1.store.accounts, r.addr = x := by
  intro l
  induction l with
  | nil => intro st _ h; exact h
  | cons a rest ih =>
    intro st hl h
    exact ih _ (fun b hb => hl b (List.mem_cons_of_mem _ hb))
      (step_presence outcome st a x (hl a (List.mem_cons_self _ _)) h)

theorem step_establishes_clean (outcome : String → CheckOutcome) (st : CycleState)
    (B : OrmAccount) (hout : outcome B.addr = .unauthorized)
    (hpresent : ∃ r ∈ st.store.accounts, r.addr = B.addr) :
    (∀ r ∈ (checkAccountStep outcome st B).1.store.accounts, r.addr ≠ B.addr)
    ∧ (∀ d ∈ (checkAccountStep outcome st B).1.store.dmChats, d.acc_addr ≠ B.addr) := by
  have hsome : (st.store.accounts.find? fun b => b.addr == B.addr).isSome := by
    rw [List.find?_isSome]
    obtain ⟨r, hr, hrx⟩ := hpresent
    exact ⟨r, hr, by simp [hrx]⟩
  obtain ⟨found, hfind⟩ := Option.isSome_iff_exists.mp hsome
  simp only [checkAccountStep, hout, hfind]
  refine ⟨?_, ?_⟩
  · intro r hr
    have := (List.mem_filter.mp hr).2
    simpa using this
  · intro d hd
    have := (List.mem_filter.mp hd).2
    simpa using this

theorem filter_addr_length_eq_count (l : List OrmAccount) (x : String) :
    (l.filter fun a => a.addr == x).length = (l.map fun a => a.addr).count x := by
  induction l with
  | nil => simp
  | cons a rest ih =>
    simp only [List.filter_cons, List.map_cons, List.count_cons]
    by_cases hax : a.addr = x
    · simp [hax, ih]
    · simp [hax, ih]

/-- C7: when the remote session reports `Unauthorized` for account B
mid-cycle, the cycle deletes B's account row, cascades the deletion to all
of B's ContactChat (DmChat) rows, sends exactly one logged-out message to
B's private conversation, and still visits every account of the snapshot
(the per-account exception handler keeps the cycle going). -/
theorem C7_unauthorized_logout
    (outcome : String → CheckOutcome) (store : Store) (nid : Nat) (B : OrmAccount)
    (hnd : (store.accounts.map fun a => a.addr).Nodup)
    (hB : B ∈ store.accounts)
    (hout : outcome B.addr = CheckOutcome.unauthorized) :
    (∀ a ∈ (runCycle outcome store nid).1.store.accounts, a.addr ≠ B.addr)
    ∧ (∀ d ∈ (runCycle outcome store nid).1.store.dmChats, d.acc_addr ≠ B.addr)
    ∧ (runCycle outcome store nid).2.count (Act.sendLogout B.addr) = 1
    ∧ ∀ a ∈ store.accounts, Act.logChecking a.addr ∈ (runCycle outcome store nid).2 := by
  have hperm := roundRobin_perm store.accounts
  have hcount : (runCycle outcome store nid).2.count (Act.sendLogout B.addr) = 1 := by
    rw [runCycle, runCycleGo_logout_count outcome B.addr hout _ _,
      filter_addr_length_eq_count, List.Perm.count_eq (hperm.map _) B.addr]
    exact List.count_eq_one_of_mem hnd (List.mem_map_of_mem _ hB)
  have hlog : ∀ a ∈ store.accounts,
      Act.logChecking a.addr ∈ (runCycle outcome store nid).2 := by
    intro a ha
    exact runCycleGo_logChecking outcome _ _ a (hperm.mem_iff.mpr ha)
  have hBv : B ∈ roundRobin (groupByUrl store.accounts) := hperm.mem_iff.mpr hB
  obtain ⟨pre, post, hsplit⟩ := List.append_of_mem hBv
  have hndv : ((roundRobin (groupByUrl store.accounts)).map fun a => a.addr).Nodup :=
    ((hperm.map _).nodup_iff).mpr hnd
  rw [hsplit, List.map_append, List.map_cons] at hndv
  obtain ⟨hnd1, hnd2, hdisj⟩ := List.nodup_append.mp hndv
  have hpre : ∀ a ∈ pre, a.addr ≠ B.addr := by
    intro a ha heq
    exact hdisj (List.mem_map_of_mem _ ha) (by rw [heq]; exact List.mem_cons_self _ _)
  have hpost : ∀ a ∈ post, a.addr ≠ B.addr := by
    intro a ha heq
    have := (List.nodup_cons.mp hnd2).1
    exact this (heq ▸ List.mem_map_of_mem _ ha)
  have h1store : (runCycle outcome store nid).1
      = (runCycleGo outcome
          (checkAccountStep outcome (runCycleGo outcome ⟨store, nid⟩ pre).1 B).1 post).1 := by
    rw [runCycle, hsplit, runCycleGo_append]
    simp [runCycleGo]
  have hpresent : ∃ r ∈ (runCycleGo outcome ⟨store, nid⟩ pre).1.store.accounts,
      r.addr = B.addr :=
    runCycleGo_presence outcome B.addr pre ⟨store, nid⟩ hpre ⟨B, hB, rfl⟩
  have hestab := step_establishes_clean outcome (runCycleGo outcome ⟨store, nid⟩ pre).1 B
    hout hpresent
  have hclean := runCycleGo_preserves_clean outcome B.addr post
    (checkAccountStep outcome (runCycleGo outcome ⟨store, nid⟩ pre).1 B).1 hpost
    hestab.1 hestab.2
  refine ⟨?_, ?_, hcount, hlog⟩
  · rw [h1store]
    exact hclean.1
  · rw [h1store]
    exact hclean.2

/-- Demo account rows and a demo session oracle for the cycle witness. -/
def ormB : OrmAccount :=
  ⟨"b@x", "bob", "https://inst", "tokB", 10, 11, some 5, some 6, false, false⟩

def ormC : OrmAccount :=
  ⟨"c@x", "carol", "https://inst", "tokC", 20, 21, none, none, false, false⟩

def demoStore : Store := ⟨[ormB, ormC], [⟨30, "dan", "b@x"⟩]⟩

def demoOutcome : String → CheckOutcome := fun addr =>
  if addr == "b@x" then CheckOutcome.unauthorized else CheckOutcome.ok [] [] 1

/-- Witness for C7 at a concrete two-account store where account B's
session is unauthorized. -/
theorem C7_unauthorized_logout_witness :
    ((demoStore.accounts.map fun a => a.addr).Nodup
      ∧ ormB ∈ demoStore.accounts
      ∧ demoOutcome ormB.addr = CheckOutcome.unauthorized)
    ∧ ((∀ a ∈ (runCycle demoOutcome demoStore 1).1.store.accounts, a.addr ≠ ormB.addr)
      ∧ (∀ d ∈ (runCycle demoOutcome demoStore 1).1.store.dmChats, d.acc_addr ≠ ormB.addr)
      ∧ (runCycle demoOutcome demoStore 1).2.count (Act.sendLogout ormB.addr) = 1
      ∧ ∀ a ∈ demoStore.accounts,
          Act.logChecking a.addr ∈ (runCycle demoOutcome demoStore 1).2) :=
  ⟨⟨by decide, by decide, by decide⟩,
    C7_unauthorized_logout demoOutcome demoStore 1 ormB (by decide) (by decide) (by decide)⟩

/-- Python `str.lower()` on the character sequence. -/
def lowerStr (s : String) : String := ⟨s.data.map Char.toLower⟩

/-- Python `str.startswith` on the character sequence. -/
def strStartsWith (s p : String) : Bool := seqStartsWith p.data s.data

/-- Python slicing `s[n:]` on the character sequence. -/
def strDrop (s : String) (n : Nat) : String := ⟨s.data.drop n⟩

/-- Python `str.rstrip("/")`. -/
def rstripSlash (s : String) : String :=
  ⟨(s.data.reverse.dropWhile fun c => c == '/').reverse⟩

/-- `_normalize_url` of __init__.py (identical in util.py), embedded
literally — including the `"https://" + url[4:]` branch for `http://`
inputs. -/
def normalizeUrl (url : String) : String :=
  let url2 :=
    if strStartsWith url "http://" then "https://" ++ strDrop url 4
    else if !(strStartsWith url "https://") then "https://" ++ url
    else url
  rstripSlash url2

/-- An account row of db.py's `accounts` table. -/
structure OldAccount where
  id : Nat
  email : String
  password : String
  api_url : String
  accname : String
  addr : String
  home : Nat
  notif : Nat
  last_home : Option Nat
  last_notif : Option Nat
deriving DecidableEq, Repr

/-- db.py `get_account_by_user`: `SELECT * FROM accounts WHERE accname=?
AND api_url=?` with the name lowercased. -/
def getAccountByUser (accounts : List OldAccount) (name url : String) :
    Option OldAccount :=
  accounts.find? fun a => a.accname == lowerStr name && a.api_url == url

/-- The remote side of a login attempt: the identity the credentials
resolve to (`m.me().acct`) and the servers used to prime the cursors. -/
structure LoginEnv where
  uname : String
  notifServer : List Notification
  homeServer : List Toot
deriving Repr

/-- Result of an `m_login` command: the account table, the two id
allocators, and the (first) reply text sent to the user. -/
structure LoginResult where
  accounts : List OldAccount
  nextAccId : Nat
  nextGroupId : Nat
  reply : String
deriving DecidableEq, Repr

/-- __init__.py `m_login` (lines 91-132): normalize the instance url,
enforce the account caps, resolve the remote identity
(`uname = m.me().acct.lower()`), reject when an account with that
(accname, api_url) pair already exists ("Account already in use"), else
prime both cursors from the newest existing events, create the Home and
Notifications groups (ids allocated from `nextGroupId`) and insert a new
row.  On success the reply recorded is the text sent to the new Home
group. -/
def mLogin (accounts : List OldAccount) (nextAccId nextGroupId : Nat)
    (maxUsers maxUsersInstance : Int) (rawUrl email passwd addr : String)
    (env : LoginEnv) : LoginResult :=
  let api_url := normalizeUrl rawUrl
  if maxUsers ≥ 0 ∧ (accounts.length : Int) ≥ maxUsers then
    ⟨accounts, nextAccId, nextGroupId, "No more accounts allowed."⟩
  else if maxUsersInstance ≥ 0 ∧
      ((accounts.filter fun a => a.api_url == api_url).length : Int) ≥ maxUsersInstance then
    ⟨accounts, nextAccId, nextGroupId, "No more accounts allowed from " ++ api_url⟩
  else
    let uname := lowerStr env.uname
    match getAccountByUser accounts uname api_url with
    | some _ => ⟨accounts, nextAccId, nextGroupId, "Account already in use"⟩
    | none =>
      ⟨accounts ++ [⟨nextAccId, email, passwd, api_url, uname, addr,
          nextGroupId, nextGroupId + 1, loginPrimeHome env.homeServer,
          loginPrimeNotif env.notifServer⟩],
        nextAccId + 1, nextGroupId + 2,
        "Messages sent here will be tooted to " ++ api_url⟩

/-- The (remote account name, instance url) pairs of the account table. -/
def accountPairs (accounts : List OldAccount) : List (String × String) :=
  accounts.map fun a => (a.accname, a.api_url)

theorem toLower_idem (c : Char) : c.toLower.toLower = c.toLower := by
  by_cases h : 65 ≤ c.toNat ∧ c.toNat ≤ 90
  · have hv : (c.toNat + 32).isValidChar := by
      constructor
      omega
    have h1 : c.toLower = Char.ofNat (c.toNat + 32) := by
      simp [Char.toLower, h.1, h.2]
    have ht : (Char.ofNat (c.toNat + 32)).toNat = c.toNat + 32 := by
      rw [Char.ofNat, dif_pos hv]
      rfl
    rw [h1]
    simp only [Char.toLower, ht]
    rw [if_neg]
    simp only [Bool.and_eq_true, decide_eq_true_eq, not_and]
    omega
  · have h1 : c.toLower = c := by
      simp only [Char.toLower]
      rw [if_neg]
      simp only [Bool.and_eq_true, decide_eq_true_eq, not_and]
      omega
    simp only [h1]

theorem lowerStr_idem (s : String) : lowerStr (lowerStr s) = lowerStr s := by
  simp only [lowerStr, List.map_map]
  congr 1
  refine List.map_congr_left fun c _ => ?_
  simp only [Function.comp_apply, toLower_idem]

/-- An existing linked account. -/
def oldAcc1 : OldAccount :=
  ⟨1, "e@x", "pw1", "https://inst", "alice", "a@x", 100, 101, some 7, some 8⟩

/-- C8 counterexample: a second login by the same local user ("a@x") to the
same remote identity ("alice" on https://inst) with a fresh password is
rejected with "Account already in use" and leaves the stored row — its old
password included — untouched: the credential is *not* refreshed in
place. -/
theorem C8_relogin_counterexample :
    (mLogin [oldAcc1] 2 200 (-1) (-1) "https://inst" "e@x" "pw2" "a@x"
        ⟨"alice", [], []⟩).reply = "Account already in use"
    ∧ (mLogin [oldAcc1] 2 200 (-1) (-1) "https://inst" "e@x" "pw2" "a@x"
        ⟨"alice", [], []⟩).accounts = [oldAcc1]
    ∧ oldAcc1.password = "pw1" ∧ "pw1" ≠ "pw2" := by
  decide

/-- C8 amended: at most one account per (remote account name, instance)
pair is maintained, but a second login to an already-linked remote identity
is *rejected* ("Account already in use") leaving the table unchanged — it
neither creates a duplicate nor refreshes the stored credential; and
`m_login` preserves uniqueness of the (accname, api_url) pairs. -/
theorem C8_login_unique_amended (accounts : List OldAccount)
    (nextAccId nextGroupId : Nat) (rawUrl email passwd addr : String) (env : LoginEnv)
    (hnd : (accountPairs accounts).Nodup) :
    ((∃ a ∈ accounts, a.accname = lowerStr env.uname ∧ a.api_url = normalizeUrl rawUrl) →
      (mLogin accounts nextAccId nextGroupId (-1) (-1) rawUrl email passwd addr
          env).accounts = accounts
      ∧ (mLogin accounts nextAccId nextGroupId (-1) (-1) rawUrl email passwd addr
          env).reply = "Account already in use")
    ∧ (accountPairs (mLogin accounts nextAccId nextGroupId (-1) (-1) rawUrl email passwd
        addr env).accounts).Nodup := by
  have hm1 : ¬ ((-1 : Int) ≥ 0 ∧ (accounts.length : Int) ≥ (-1 : Int)) := by
    intro h
    omega
  have hm2 : ¬ ((-1 : Int) ≥ 0 ∧
      (((accounts.filter fun a => a.api_url == normalizeUrl rawUrl).length : Int))
        ≥ (-1 : Int)) := by
    intro h
    omega
  constructor
  · intro hex
    obtain ⟨a, ha, h1, h2⟩ := hex
    have hsome : (getAccountByUser accounts (lowerStr env.uname)
        (normalizeUrl rawUrl)).isSome := by
      rw [getAccountByUser, List.find?_isSome]
      refine ⟨a, ha, ?_⟩
      simp [h1, h2, lowerStr_idem]
    obtain ⟨found, hfind⟩ := Option.isSome_iff_exists.mp hsome
    constructor
    · simp [mLogin, hm1, hm2, hfind]
    · simp [mLogin, hm1, hm2, hfind]
  · cases hfind : getAccountByUser accounts (lowerStr env.uname) (normalizeUrl rawUrl) with
    | some found => simpa [mLogin, hm1, hm2, hfind] using hnd
    | none =>
      have hnotmem : (lowerStr env.uname, normalizeUrl rawUrl)
          ∉ accountPairs accounts := by
        intro hmem
        obtain ⟨a, ha, heq⟩ := List.mem_map.mp hmem
        have h1 : a.accname = lowerStr env.uname := congrArg Prod.fst heq
        have h2 : a.api_url = normalizeUrl rawUrl := congrArg Prod.snd heq
        have := List.find?_eq_none.mp hfind a ha
        simp [h1, h2, lowerStr_idem] at this
      simp only [mLogin, accountPairs]
      rw [if_neg hm1, if_neg hm2, hfind]
      simp only [List.map_append, List.map_cons, List.map_nil]
      rw [List.nodup_append]
      refine ⟨hnd, by simp, ?_⟩
      intro p hp
      simp only [List.mem_singleton]
      intro hpe
      subst hpe
      exact hnotmem hp

theorem C8_login_unique_amended_witness :
    (accountPairs [oldAcc1]).Nodup ∧
    (((∃ a ∈ [oldAcc1], a.accname = lowerStr "alice"
        ∧ a.api_url = normalizeUrl "https://inst") →
      (mLogin [oldAcc1] 2 200 (-1) (-1) "https://inst" "e@x" "pw2" "a@x"
          ⟨"alice", [], []⟩).accounts = [oldAcc1]
      ∧ (mLogin [oldAcc1] 2 200 (-1) (-1) "https://inst" "e@x" "pw2" "a@x"
          ⟨"alice", [], []⟩).reply = "Account already in use")
    ∧ (accountPairs (mLogin [oldAcc1] 2 200 (-1) (-1) "https://inst" "e@x" "pw2"
        "a@x" ⟨"alice", [], []⟩).accounts).Nodup) :=
  ⟨by decide, C8_login_unique_amended [oldAcc1] 2 200 "https://inst" "e@x" "pw2"
    "a@x" ⟨"alice", [], []⟩ (by decide)⟩

/-- A `pchats` row of db.py: group id, contact handle (stored lowercased),
owning account id. -/
structure PChat where
  id : Nat
  contact : String
  account : Nat
deriving DecidableEq, Repr

/-- db.py `add_pchat`: `INSERT INTO pchats VALUES (?,?,?)` with
`contact.lower()`. -/
def addPchat (pchats : List PChat) (gid : Nat) (contact : String)
    (accId : Nat) : List PChat :=
  pchats ++ [⟨gid, lowerStr contact, accId⟩]

/-- db.py `get_pchat_by_contact`: `SELECT * FROM pchats WHERE account=? AND
contact=?` with `contact.lower()`. -/
def getPchatByContact (pchats : List PChat) (accId : Nat) (contact : String) :
    Option PChat :=
  pchats.find? fun p => p.account == accId && p.contact == lowerStr contact

theorem cacheGet_cacheSet_same (cache : List (String × Nat)) (k : String) (v : Nat) :
    cacheGet (cacheSet cache k v) k = some v := by
  induction cache with
  | nil => simp [cacheSet, cacheGet]
  | cons p rest ih =>
    obtain ⟨k0, v0⟩ := p
    by_cases h : k0 == k
    · simp [cacheSet, cacheGet, h]
    · simp only [cacheSet, cacheGet, h, Bool.false_eq_true, if_neg, if_false]
      exact ih

theorem cacheGet_cacheSet_other (cache : List (String × Nat)) (k k2 : String)
    (v : Nat) (h : ¬ k = k2) :
    cacheGet (cacheSet cache k v) k2 = cacheGet cache k2 := by
  induction cache with
  | nil =>
    simp only [cacheSet, cacheGet]
    rw [if_neg (by simpa using h)]
  | cons p rest ih =>
    obtain ⟨k0, v0⟩ := p
    by_cases h0 : k0 == k
    · have hk : k0 = k := by simpa using h0
      simp only [cacheSet, h0, if_pos]
      rw [cacheGet, cacheGet, if_neg, if_neg]
      · simpa [hk] using h
      · simpa [hk] using h
    · simp only [cacheSet]
      rw [if_neg (by simpa using h0)]
      rw [cacheGet, cacheGet]
      by_cases h2 : k0 == k2
      · rw [if_pos h2, if_pos h2]
      · rw [if_neg h2, if_neg h2]
        exact ih

theorem getChatId_append (store l : List DmChatRec) (addr acct : String)
    (h : getChatId store addr acct ≠ 0) :
    getChatId (store ++ l) addr acct = getChatId store addr acct := by
  rw [getChatId, getChatId] at *
  cases hf : store.find? (fun r => r.acc_addr == addr && r.contact == acct) with
  | none =>
    rw [hf] at h
    exact absurd rfl h
  | some r =>
    rw [List.find?_append, hf]
    rfl

/-- Is this effect the creation of a DM chat for handle `acct`? -/
def isCreateFor (acct : String) : Act → Bool
  | .createChat _ c => c == acct
  | _ => false

theorem handleDmsGo_no_create (addr acct : String) (dms : List Notification) :
    ∀ (store : List DmChatRec) (nextId : Nat) (cache : List (String × Nat)),
      resolveChatId addr store cache acct ≠ 0 →
      ((handleDmsGo addr dms store nextId cache).2.2.countP (isCreateFor acct)) = 0 := by
  induction dms with
  | nil =>
    intro store nextId cache _
    simp [handleDmsGo]
  | cons dm rest ih =>
    intro store nextId cache hres
    by_cases hc : resolveChatId addr store cache dm.status.account.acct = 0
    · have hne : ¬ dm.status.account.acct = acct := fun hh => hres (hh ▸ hc)
      simp only [handleDmsGo, hc, beq_self_eq_true, if_pos]
      rw [List.countP_cons, List.countP_cons, ih]
      · simp [isCreateFor, hne]
      · rw [resolveChatId]
        rw [cacheGet_cacheSet_other _ _ _ _ hne]
        have hcg : cacheGet
            (if ((cacheGet cache dm.status.account.acct).getD 0) == 0 then
              cacheSet cache dm.status.account.acct 0 else cache) acct
            = cacheGet cache acct := by
          by_cases hz : (((cacheGet cache dm.status.account.acct).getD 0) == 0) = true
          · rw [if_pos hz, cacheGet_cacheSet_other _ _ _ _ hne]
          · rw [if_neg hz]
        rw [hcg]
        by_cases hz2 : (((cacheGet cache acct).getD 0) == 0) = true
        · rw [if_pos hz2]
          have hst : getChatId store addr acct ≠ 0 := by
            rw [resolveChatId, if_pos hz2] at hres
            exact hres
          rw [getChatId_append _ _ _ _ hst]
          exact hst
        · rw [if_neg hz2]
          intro h0
          exact hz2 (by simp [h0])
    · simp only [handleDmsGo]
      rw [if_neg (by simpa using hc)]
      rw [List.countP_cons, ih]
      · simp [isCreateFor]
      · by_cases hacct : dm.status.account.acct = acct
        · by_cases hz : (((cacheGet cache dm.status.account.acct).getD 0) == 0) = true
          · rw [if_pos hz, resolveChatId, hacct, cacheGet_cacheSet_same]
            rw [hacct] at hc
            rw [if_neg (by simpa using hc)]
            simpa using hc
          · rw [if_neg hz]
            exact hres
        · have hcg : cacheGet
              (if ((cacheGet cache dm.status.account.acct).getD 0) == 0 then
                cacheSet cache dm.status.account.acct
                  (resolveChatId addr store cache dm.status.account.acct)
                else cache) acct
              = cacheGet cache acct := by
            by_cases hz : (((cacheGet cache dm.status.account.acct).getD 0) == 0) = true
            · rw [if_pos hz, cacheGet_cacheSet_other _ _ _ _ hacct]
            · rw [if_neg hz]
          rw [resolveChatId, hcg]
          rw [resolveChatId] at hres
          exact hres

theorem handleDmsGo_create_once (addr acct : String) (dms : List Notification) :
    ∀ (store : List DmChatRec) (nextId : Nat) (cache : List (String × Nat)),
      1 ≤ nextId →
      ((handleDmsGo addr dms store nextId cache).2.2.countP (isCreateFor acct)) ≤ 1 := by
  induction dms with
  | nil =>
    intro store nextId cache _
    simp [handleDmsGo]
  | cons dm rest ih =>
    intro store nextId cache h1
    by_cases hc : resolveChatId addr store cache dm.status.account.acct = 0
    · by_cases hacct : dm.status.account.acct = acct
      · simp only [handleDmsGo, hc, beq_self_eq_true, if_pos]
        rw [List.countP_cons, List.countP_cons, handleDmsGo_no_create addr acct rest]
        · simp [isCreateFor, hacct]
        · rw [resolveChatId, hacct, cacheGet_cacheSet_same]
          rw [if_neg (by simpa using Nat.one_le_iff_ne_zero.mp h1)]
          simpa using Nat.one_le_iff_ne_zero.mp h1
      · simp only [handleDmsGo, hc, beq_self_eq_true, if_pos]
        rw [List.countP_cons, List.countP_cons]
        have hd : isCreateFor acct (Act.deliverDm nextId dm) = false := rfl
        have hcr : isCreateFor acct (Act.createChat nextId dm.status.account.acct)
            = false := by
          simp only [isCreateFor]
          exact beq_eq_false_iff_ne.mpr hacct
        rw [hd, hcr]
        simpa using ih _ _ _ (by omega)
    · by_cases hacct : dm.status.account.acct = acct
      · simp only [handleDmsGo]
        rw [if_neg (by simpa using hc)]
        rw [List.countP_cons, handleDmsGo_no_create addr acct rest]
        · simp [isCreateFor]
        · by_cases hz : (((cacheGet cache dm.status.account.acct).getD 0) == 0) = true
          · rw [if_pos hz, resolveChatId, hacct, cacheGet_cacheSet_same]
            rw [hacct] at hc
            rw [if_neg (by simpa using hc)]
            simpa using hc
          · rw [if_neg hz]
            rw [resolveChatId]
            rw [hacct] at hz
            rw [if_neg hz]
            intro h0
            exact hz (by simp [h0])
      · simp only [handleDmsGo]
        rw [if_neg (by simpa using hc)]
        rw [List.countP_cons]
        have hd : isCreateFor acct
            (Act.deliverDm (resolveChatId addr store cache dm.status.account.acct) dm)
            = false := rfl
        rw [hd]
        simpa using ih _ _ _ h1

/-- A direct-message mention notification from the given remote handle. -/
def dmFrom (i : Nat) (handle : String) : Notification :=
  ⟨i, "mention", ⟨40 + i, handle, "", false⟩,
    ⟨60 + i, ⟨40 + i, handle, "", false⟩, "direct", [⟨9, "me", "", false⟩],
      "hi", "u", "ts"⟩⟩

/-- C9 counterexample: in the current engine (`_handle_dms` + the `DmChat`
ORM store, binary collation), two direct messages from handles differing
only in letter case ("User" vs "user") do NOT resolve to the same
conversation: the batch creates two distinct chats, one per spelling, so
contact-chat resolution is case-sensitive. -/
theorem C9_case_resolution_counterexample :
    lowerStr "User" = lowerStr "user"
    ∧ (handleDms "a@x" [dmFrom 2 "user", dmFrom 1 "User"] [] 1).1
        = [⟨1, "User", "a@x"⟩, ⟨2, "user", "a@x"⟩]
    ∧ (handleDms "a@x" [dmFrom 2 "user", dmFrom 1 "User"] [] 1).2.2
        = [Act.createChat 1 "User", Act.deliverDm 1 (dmFrom 1 "User"),
           Act.createChat 2 "user", Act.deliverDm 2 (dmFrom 2 "user")] := by
  decide

/-- C9 amended: resolution is idempotent but only the legacy db.py path is
case-insensitive.  (1) db.py `get_pchat_by_contact` gives the same answer
for any two spellings with equal lowercasing; (2) a pchat inserted via
`add_pchat` under one spelling is found under any other spelling of the
same handle; (3) in the current engine a sync batch creates at most one
chat per (account, verbatim handle) pair; (4) if the pair already resolves
to a chat in the store, the batch creates none. -/
theorem C9_contact_resolution_amended :
    (∀ (pchats : List PChat) (accId : Nat) (c1 c2 : String),
        lowerStr c1 = lowerStr c2 →
        getPchatByContact pchats accId c1 = getPchatByContact pchats accId c2)
    ∧ (∀ (pchats : List PChat) (gid accId : Nat) (c1 c2 : String),
        lowerStr c1 = lowerStr c2 →
        getPchatByContact pchats accId c1 = none →
        getPchatByContact (addPchat pchats gid c1 accId) accId c2
          = some ⟨gid, lowerStr c1, accId⟩)
    ∧ (∀ (addr : String) (dms : List Notification) (store : List DmChatRec)
        (nextId : Nat) (acct : String), 1 ≤ nextId →
        ((handleDms addr dms store nextId).2.2.countP (isCreateFor acct)) ≤ 1)
    ∧ (∀ (addr : String) (dms : List Notification) (store : List DmChatRec)
        (nextId : Nat) (acct : String), getChatId store addr acct ≠ 0 →
        ((handleDms addr dms store nextId).2.2.countP (isCreateFor acct)) = 0) := by
  refine ⟨?_, ?_, ?_, ?_⟩
  · intro pchats accId c1 c2 h
    simp only [getPchatByContact, h]
  · intro pchats gid accId c1 c2 h hn
    simp only [getPchatByContact, addPchat] at *
    rw [← h, List.find?_append, hn]
    simp
  · intro addr dms store nextId acct h1
    simp only [handleDms]
    exact handleDmsGo_create_once addr acct dms.reverse store nextId [] h1
  · intro addr dms store nextId acct h
    simp only [handleDms]
    refine handleDmsGo_no_create addr acct dms.reverse store nextId [] ?_
    simpa [resolveChatId, cacheGet] using h

theorem C9_contact_resolution_amended_witness :
    (lowerStr "User" = lowerStr "user"
      ∧ getPchatByContact [] 3 "User" = none
      ∧ getChatId [⟨5, "dan", "a@x"⟩] "a@x" "dan" ≠ 0
      ∧ (1 : Nat) ≤ 1)
    ∧ getPchatByContact [⟨7, "user", 3⟩] 3 "User"
        = getPchatByContact [⟨7, "user", 3⟩] 3 "user"
    ∧ getPchatByContact (addPchat [] 7 "User" 3) 3 "user"
        = some ⟨7, lowerStr "User", 3⟩
    ∧ ((handleDms "a@x" [dmFrom 2 "user", dmFrom 1 "User"] [] 1).2.2.countP
        (isCreateFor "User")) ≤ 1
    ∧ ((handleDms "a@x" [dmFrom 1 "dan"] [⟨5, "dan", "a@x"⟩] 6).2.2.countP
        (isCreateFor "dan")) = 0 :=
  ⟨⟨by decide, by decide, by decide, by decide⟩,
    C9_contact_resolution_amended.1 [⟨7, "user", 3⟩] 3 "User" "user" (by decide),
    C9_contact_resolution_amended.2.1 [] 7 3 "User" "user" (by decide) (by decide),
    C9_contact_resolution_amended.2.2.1 "a@x" [dmFrom 2 "user", dmFrom 1 "User"]
      [] 1 "User" (by decide),
    C9_contact_resolution_amended.2.2.2 "a@x" [dmFrom 1 "dan"] [⟨5, "dan", "a@x"⟩]
      6 "dan" (by decide)⟩

/-- `k` successive sync passes of one stream, starting from `cursor`: each
pass fetches a page with `min_id=cursor, limit=limit` and, exactly as
`_check_notifications`/`_check_home` persist `toots[0].id`, advances the
cursor to the newest id of the page; an empty page ends the iteration (the
cursor could never move again).  Returns the fetched pages in order. -/
def iterPages {α : Type} (eventId : α → Nat) (server : List α) (limit : Nat) :
    Option Nat → Nat → List (List α)
  | _, 0 => []
  | cursor, Nat.succ k =>
    match fetchPage eventId server cursor limit with
    | [] => []
    | t0 :: tl =>
      (t0 :: tl) :: iterPages eventId server limit (some (eventId t0)) k

theorem iterPages_succ {α : Type} (eventId : α → Nat) (server : List α)
    (limit : Nat) (cursor : Option Nat) (k : Nat) :
    iterPages eventId server limit cursor (k + 1)
      = match fetchPage eventId server cursor limit with
        | [] => []
        | t0 :: tl =>
          (t0 :: tl) :: iterPages eventId server limit (some (eventId t0)) k := rfl

theorem iterPages_complete {α : Type} (eventId : α → Nat) (limit : Nat) :
    ∀ (k : Nat) (server : List α) (c : Nat) (e : α),
      List.Pairwise (fun a b => eventId b < eventId a) server →
      e ∈ server → c < eventId e →
      (server.filter fun x => newerThan (some c) (eventId x)).length ≤ limit * k →
      e ∈ (iterPages eventId server limit (some c) k).flatten := by
  intro k
  induction k with
  | zero =>
    intro server c e hsort he hce hcount
    exfalso
    have hmem : e ∈ server.filter fun x => newerThan (some c) (eventId x) :=
      List.mem_filter.mpr ⟨he, by simpa [newerThan] using hce⟩
    have h1 : 0 < (server.filter fun x => newerThan (some c) (eventId x)).length :=
      List.length_pos.mpr (List.ne_nil_of_mem hmem)
    omega
  | succ k ih =>
    intro server c e hsort he hce hcount
    have hmem : e ∈ server.filter fun x => newerThan (some c) (eventId x) :=
      List.mem_filter.mpr ⟨he, by simpa [newerThan] using hce⟩
    have hnlen : 0 < (server.filter fun x => newerThan (some c) (eventId x)).length :=
      List.length_pos.mpr (List.ne_nil_of_mem hmem)
    rw [iterPages_succ]
    cases hp : fetchPage eventId server (some c) limit with
    | nil =>
      exfalso
      have hp2 : ((server.filter fun x => newerThan (some c) (eventId x)).reverse.take
          limit).reverse = ([] : List α) := by
        simpa [fetchPage] using hp
      have hlen0 := congrArg List.length hp2
      rw [List.length_reverse, List.length_take, List.length_reverse,
        List.length_nil] at hlen0
      rcases Nat.min_eq_zero_iff.mp hlen0 with h | h
      · have hz : limit * (k + 1) = 0 := by rw [h]; ring
        omega
      · omega
    | cons t0 tl =>
      simp only [List.flatten_cons]
      have hpage : ((server.filter fun x => newerThan (some c) (eventId x)).reverse.take
          limit).reverse = t0 :: tl := by
        simpa [fetchPage] using hp
      by_cases hsmall : (server.filter fun x => newerThan (some c) (eventId x)).length ≤ limit
      · have hall : (server.filter fun x => newerThan (some c) (eventId x)) = t0 :: tl := by
          rw [List.take_of_length_le (by simpa using hsmall)] at hpage
          simpa using hpage
        rw [hall] at hmem
        exact List.mem_append.mpr (Or.inl hmem)
      · have hbig : limit < (server.filter fun x => newerThan (some c) (eventId x)).length := by
          omega
        have hdrop : (server.filter fun x => newerThan (some c) (eventId x)).drop
            ((server.filter fun x => newerThan (some c) (eventId x)).length - limit)
            = t0 :: tl := by
          have h2 := List.reverse_drop
            (l := server.filter fun x => newerThan (some c) (eventId x))
            (n := (server.filter fun x => newerThan (some c) (eventId x)).length - limit)
          have h3 : (server.filter fun x => newerThan (some c) (eventId x)).length
              - ((server.filter fun x => newerThan (some c) (eventId x)).length - limit)
              = limit := by omega
          rw [h3] at h2
          have h4 := congrArg List.reverse h2
          rw [List.reverse_reverse] at h4
          rw [h4, hpage]
        have hsplit : (server.filter fun x => newerThan (some c) (eventId x))
            = (server.filter fun x => newerThan (some c) (eventId x)).take
                ((server.filter fun x => newerThan (some c) (eventId x)).length - limit)
              ++ (t0 :: tl) := by
          rw [← hdrop, List.take_append_drop]
        have hpw : ((server.filter fun x => newerThan (some c) (eventId x)).take
              ((server.filter fun x => newerThan (some c) (eventId x)).length - limit)
              ++ (t0 :: tl)).Pairwise (fun a b => eventId b < eventId a) := by
          rw [← hsplit]
          exact hsort.filter _
        rw [List.pairwise_append] at hpw
        obtain ⟨hpw1, hpw2, hcross⟩ := hpw
        -- the next cursor is strictly above the old one
        have ht0mem : t0 ∈ server.filter fun x => newerThan (some c) (eventId x) := by
          rw [hsplit]
          exact List.mem_append.mpr (Or.inr (List.mem_cons_self _ _))
        have hct0 : c < eventId t0 := by
          have := (List.mem_filter.mp ht0mem).2
          simpa [newerThan] using this
        -- the events above the new cursor are exactly the prefix
        have hfilter2 : (server.filter fun x => newerThan (some (eventId t0)) (eventId x))
            = (server.filter fun x => newerThan (some c) (eventId x)).take
                ((server.filter fun x => newerThan (some c) (eventId x)).length - limit) := by
          have hff : ((server.filter fun x => newerThan (some c) (eventId x)).filter
                fun x => newerThan (some (eventId t0)) (eventId x))
              = server.filter fun x => newerThan (some (eventId t0)) (eventId x) := by
            rw [List.filter_filter]
            refine List.filter_congr ?_
            intro x _
            by_cases hx : eventId t0 < eventId x
            · have hcx : c < eventId x := lt_trans hct0 hx
              simp [newerThan, hx, hcx]
            · simp [newerThan, hx]
          rw [← hff]
          conv_lhs => rw [hsplit]
          rw [List.filter_append]
          have hkeep : ((server.filter fun x => newerThan (some c) (eventId x)).take
                ((server.filter fun x => newerThan (some c) (eventId x)).length - limit)).filter
                (fun x => newerThan (some (eventId t0)) (eventId x))
              = (server.filter fun x => newerThan (some c) (eventId x)).take
                ((server.filter fun x => newerThan (some c) (eventId x)).length - limit) := by
            refine List.filter_eq_self.mpr ?_
            intro a ha
            have := hcross a ha t0 (List.mem_cons_self _ _)
            simpa [newerThan] using this
          have hdroppart : (t0 :: tl).filter
              (fun x => newerThan (some (eventId t0)) (eventId x)) = [] := by
            refine List.filter_eq_nil_iff.mpr ?_
            intro b hb
            rcases List.mem_cons.mp hb with hb0 | hbtl
            · subst hb0
              simp [newerThan]
            · have hb := List.rel_of_pairwise_cons hpw2 hbtl
              simp only [newerThan, decide_eq_true_eq]
              omega
          rw [hkeep, hdroppart, List.append_nil]
        by_cases hep : e ∈ t0 :: tl
        · exact List.mem_append.mpr (Or.inl hep)
        · have hetake : e ∈ (server.filter fun x => newerThan (some c) (eventId x)).take
              ((server.filter fun x => newerThan (some c) (eventId x)).length - limit) := by
            rw [hsplit] at hmem
            rcases List.mem_append.mp hmem with h | h
            · exact h
            · exact absurd h hep
          have hce2 : eventId t0 < eventId e := by
            have := hcross e hetake t0 (List.mem_cons_self _ _)
            exact this
          have hcount2 : (server.filter fun x =>
              newerThan (some (eventId t0)) (eventId x)).length ≤ limit * k := by
            rw [hfilter2]
            have := List.length_take_of_le
              (l := server.filter fun x => newerThan (some c) (eventId x))
              (show (server.filter fun x => newerThan (some c) (eventId x)).length - limit
                ≤ (server.filter fun x => newerThan (some c) (eventId x)).length by omega)
            rw [this]
            have hmul : limit * (k + 1) = limit * k + limit := by ring
            omega
          exact List.mem_append.mpr (Or.inr (ih server (eventId t0) e hsort he hce2 hcount2))

/-- A home-timeline server holding 101 posts (ids 101 down to 1,
newest-first), all newer than cursor 0. -/
def server101 : List Toot := (List.range 101).map fun i => demoToot (101 - i)

/-- C10 counterexample: with 101 new posts above the cursor, `min_id`
forward pagination makes the first pass fetch the *oldest* 100 — the post
older than the newest 100 (id 1) is fetched and delivered in the first
pass, not skipped — the cursor advances to 100, and the second pass
delivers the remaining newest post (id 101).  Nothing is permanently
skipped. -/
theorem C10_skip_counterexample :
    server101.length = 101
    ∧ (∀ t ∈ server101, newerThan (some 0) t.id = true)
    ∧ (fetchPage (fun t => t.id) server101 (some 0) 100).length = 100
    ∧ demoToot 1 ∈ fetchPage (fun t => t.id) server101 (some 0) 100
    ∧ Act.deliverHome 9 (demoToot 1) ∈ (homePass server101 "a@x" 9 (some 0) 999).trace
    ∧ (homePass server101 "a@x" 9 (some 0) 999).cursor = some 100
    ∧ (homePass server101 "a@x" 9 (some 100) 999).trace
        = [Act.persistHome "a@x" 101, Act.deliverHome 9 (demoToot 101)]
    ∧ (homePass server101 "a@x" 9 (some 100) 999).cursor = some 101 := by
  decide

/-- C10 amended: each pass fetches at most 100 events and advances the
cursor to the newest id of the fetched page; but because `min_id` is
forward pagination (each page is the oldest batch above the cursor),
events beyond the newest 100 are *not* permanently skipped: every event
above the cursor of a sorted stream is delivered within enough passes
(any `k` with at most `100 k` pending events). -/
theorem C10_pagination_amended :
    (∀ (server : List Toot) (cursor : Option Nat),
        (fetchPage (fun t => t.id) server cursor 100).length ≤ 100)
    ∧ (∀ (server : List Toot) (addr : String) (chat : Nat) (c : Nat) (meId : Nat)
        (t0 : Toot) (tl : List Toot),
        fetchPage (fun t => t.id) server (some c) 100 = t0 :: tl →
        (homePass server addr chat (some c) meId).cursor = some t0.id)
    ∧ (∀ (server : List Toot) (c : Nat) (e : Toot) (k : Nat),
        List.Pairwise (fun a b => b.id < a.id) server →
        e ∈ server → c < e.id →
        (server.filter fun t => newerThan (some c) t.id).length ≤ 100 * k →
        e ∈ (iterPages (fun t => t.id) server 100 (some c) k).flatten) := by
  refine ⟨?_, ?_, ?_⟩
  · intro server cursor
    exact fetchPage_length_le (fun t => t.id) server cursor 100
  · intro server addr chat c meId t0 tl hp
    simp only [homePass, hp, checkHome]
  · intro server c e k hs he hce hcount
    exact iterPages_complete (fun t => t.id) 100 k server c e hs he hce hcount

theorem C10_pagination_amended_witness :
    ((fetchPage (fun t => t.id) server101 (some 0) 100
        = demoToot 100 :: ((List.range 99).map fun i => demoToot (99 - i)))
      ∧ List.Pairwise (fun a b => b.id < a.id) [demoToot 3, demoToot 2, demoToot 1]
      ∧ demoToot 1 ∈ [demoToot 3, demoToot 2, demoToot 1]
      ∧ 0 < (demoToot 1).id
      ∧ ([demoToot 3, demoToot 2, demoToot 1].filter fun t =>
          newerThan (some 0) t.id).length ≤ 100 * 1)
    ∧ (fetchPage (fun t => t.id) server101 (some 0) 100).length ≤ 100
    ∧ (homePass server101 "a@x" 9 (some 0) 999).cursor = some (demoToot 100).id
    ∧ demoToot 1 ∈ (iterPages (fun t => t.id) [demoToot 3, demoToot 2, demoToot 1]
        100 (some 0) 1).flatten :=
  ⟨⟨by decide, by decide, by decide, by decide, by decide⟩,
    C10_pagination_amended.1 server101 (some 0),
    C10_pagination_amended.2.1 server101 "a@x" 9 0 999 (demoToot 100)
      ((List.range 99).map fun i => demoToot (99 - i)) (by decide),
    C10_pagination_amended.2.2 [demoToot 3, demoToot 2, demoToot 1] 0 (demoToot 1) 1
      (by decide) (by decide) (by decide) (by decide)⟩
